import Mathlib

/-!
# ldap-oidc-provider: configuration, account resolution and assertion guard

A shallow embedding of `provider/configurator.js` and
`provider/actions/assertion/authorize.js`, followed by the properties
established about them.
-/

namespace LdapOidc

/-! # Definitions -/

/-! ## Part 1: `authorize.js`, the assertion authorization guard -/

/-- Values as the guard compares them.  Primitives carry their value; every
object carries the identity of its allocation, because `===` and `indexOf`
compare objects by identity.  An array also carries its elements. -/
inductive RefVal where
  | undefined
  | null
  | bool (b : Bool)
  | num (n : Int)
  | nan
  | str (s : String)
  | object (addr : Nat)
  | array (addr : Nat) (elems : List RefVal)

/-- ToBoolean. -/
def RefVal.truthy : RefVal → Bool
  | .undefined => false
  | .null => false
  | .bool b => b
  | .num n => n != 0
  | .nan => false
  | .str s => s != ""
  | .object _ => true
  | .array _ _ => true

/-- The strict equality comparison `a === b`. -/
def RefVal.strictEquals : RefVal → RefVal → Bool
  | .undefined, .undefined => true
  | .null, .null => true
  | .bool a, .bool b => a == b
  | .num a, .num b => a == b
  | .str a, .str b => a == b
  | .object a, .object b => a == b
  | .array a _, .array b _ => a == b
  | _, _ => false

/-- `Array.isArray(v)`. -/
def RefVal.isArray : RefVal → Bool
  | .array _ _ => true
  | _ => false

/-- Scan of `Array.prototype.indexOf`: the position of the first element
strictly equal to `x`, counted from `i`, or `-1`. -/
def indexOfFrom (x : RefVal) : List RefVal → Nat → Int
  | [], _ => -1
  | e :: es, i => if e.strictEquals x then (i : Int) else indexOfFrom x es (i + 1)

/-- `arr.indexOf(x)`; the guard only calls it on a value that passed
`Array.isArray`. -/
def RefVal.indexOf : RefVal → RefVal → Int
  | .array _ es, x => indexOfFrom x es 0
  | _, _ => -1

/-- The error classes the guard can raise. -/
inductive HttpError where
  | InvalidRequestError (message : String)
  deriving DecidableEq

/-- `ctx.oidc.assertion_grant.body`. -/
structure Claims where
  iss : RefVal
  azp : RefVal

/-- `ctx.oidc.assertion_grant`. -/
structure AssertionGrant where
  authz : RefVal
  body : Claims

/-- `ctx.oidc.client`. -/
structure Client where
  clientId : RefVal
  redirectUris : RefVal

/-- `ctx.oidc`. -/
structure OidcContext where
  assertion_grant : AssertionGrant
  client : Client

/-- A middleware run: it may raise, and it counts how often the downstream
continuation was entered. -/
abbrev Middleware := ExceptT HttpError (StateM Nat)

/-- The continuation `next()`: entering it is recorded. -/
def next : Middleware Unit :=
  modify (· + 1)

/-- The middleware `authorize(ctx, next)` returned by `factory`. -/
def authorize (ctx : OidcContext) : Middleware Unit := do
  if ctx.assertion_grant.authz.truthy then
    let claims := ctx.assertion_grant.body
    if !ctx.client.clientId.strictEquals claims.iss then
      if ctx.client.redirectUris.isArray then
        if ctx.client.redirectUris.indexOf claims.azp < 0 then
          throw (HttpError.InvalidRequestError "invalid assertion request")
      else if !ctx.client.redirectUris.strictEquals claims.azp then
        throw (HttpError.InvalidRequestError "invalid assertion request")
  next

/-- What running the middleware from a fresh request yields: the raised error
(if any) and the number of times `next` was entered. -/
def runAuthorize (ctx : OidcContext) : Except HttpError Unit × Nat :=
  (authorize ctx).run.run 0

/-- The rejection condition in the words of the contract: the grant is
flagged, the issuer is not the client itself, and the authorized party is
neither a member of the redirect list nor equal to the single value. -/
def rejected (ctx : OidcContext) : Prop :=
  ctx.assertion_grant.authz.truthy = true ∧
  ctx.client.clientId.strictEquals ctx.assertion_grant.body.iss = false ∧
  ((∃ a es, ctx.client.redirectUris = RefVal.array a es ∧
      ∀ e ∈ es, e.strictEquals ctx.assertion_grant.body.azp = false) ∨
   ((∀ a es, ctx.client.redirectUris ≠ RefVal.array a es) ∧
      ctx.client.redirectUris.strictEquals ctx.assertion_grant.body.azp = false))

/-- The request of the contract's example: client `A`, issuer `B`. -/
def exampleCtx (uris : List String) : OidcContext :=
  { assertion_grant :=
      { authz := .bool true,
        body := { iss := .str "B", azp := .str "https://b.example/cb" } },
    client := { clientId := .str "A", redirectUris := .array 0 (uris.map RefVal.str) } }

/-! ## Part 2: `Configurator.reduceConfiguration`

Configuration values are modelled as trees.  A raw configuration comes out of
`JSON.parse` (`loadConfiguration`), so no object in it is reachable along two
paths; the compiled-in defaults are taken the same way.  Under that reading
the in-place update `settings[k][ek] = v` is the functional update of the
value stored under `k`.  Members inherited from `Object.prototype` are not
part of the model. -/

/-- The code behind a function value. -/
inductive FnCode where
  /-- A function shipped with the defaults, known by name only. -/
  | native (name : String)
  /-- The closure `function (ctx, ia) { return confirmUrl + ctx.oidc.uuid }`. -/
  | interactionUrl (confirmUrl : String)
  /-- The closure `(ctx, id) => this.accountById(id)`. -/
  | findById
  deriving DecidableEq

/-- The three kinds of object a configuration can hold. -/
inductive ObjKind where
  | plain
  | array
  | function (code : FnCode)
  deriving DecidableEq

/-- JavaScript values with value semantics.  An object is its kind and its own
enumerable properties in stored order; an array stores its elements under the
keys `"0"`, `"1"`, ... -/
inductive JSVal where
  | undefined
  | null
  | bool (b : Bool)
  | num (n : Int)
  | str (s : String)
  | obj (kind : ObjKind) (props : List (String × JSVal))

/-- The own enumerable properties of an object. -/
abbrev Props := List (String × JSVal)

/-- Runtime errors of the embedded code. -/
inductive JSError where
  /-- A `TypeError`, as raised in strict mode when a property is written on
  `undefined`, `null` or a primitive, or on a read-only property. -/
  | TypeError
  /-- An operation whose effect lies outside the model: writing `__proto__`
  (an accessor of `Object.prototype`) or the `length` of an array. -/
  | notModelled
  deriving DecidableEq

/-- ToBoolean. -/
def JSVal.truthy : JSVal → Bool
  | .undefined => false
  | .null => false
  | .bool b => b
  | .num n => n != 0
  | .str s => s != ""
  | .obj _ _ => true

/-- Read of an own property, `undefined` when absent. -/
def propGet : Props → String → JSVal
  | [], _ => .undefined
  | (k', v) :: ps, k => if k' = k then v else propGet ps k

/-- Write of an own property: an existing one keeps its place, a new one goes
last. -/
def propSet : Props → String → JSVal → Props
  | [], k, v => [(k, v)]
  | (k', v') :: ps, k, v => if k' = k then (k, v) :: ps else (k', v') :: propSet ps k v

/-- The names of the own properties, `Object.keys` of a plain object. -/
def propKeys (ps : Props) : List String :=
  ps.map Prod.fst

/-- The index keys `"i"`, `"i+1"`, ... of a string together with its
characters (one UTF-16 unit per character is assumed). -/
def charProps : List Char → Nat → Props
  | [], _ => []
  | c :: cs, i => (toString i, .str (String.singleton c)) :: charProps cs (i + 1)

/-- `Object.keys(v)` for a value that is not `undefined` or `null`. -/
def JSVal.ownKeys : JSVal → List String
  | .obj _ ps => propKeys ps
  | .str s => propKeys (charProps s.toList 0)
  | _ => []

/-- The read `v[k]` of an enumerable own property of a truthy value. -/
def JSVal.getProp : JSVal → String → JSVal
  | .obj _ ps, k => propGet ps k
  | .str s, k => propGet (charProps s.toList 0) k
  | _, _ => .undefined

/-- The strict-mode assignment `target[k] = v`, returning the updated
target. -/
def JSVal.setProp : JSVal → String → JSVal → Except JSError JSVal
  | .obj kind ps, k, v =>
    if k = "__proto__" then .error .notModelled
    else match kind with
      | .plain => .ok (.obj .plain (propSet ps k v))
      | .array =>
        if k = "length" then .error .notModelled else .ok (.obj .array (propSet ps k v))
      | .function c =>
        if k = "length" ∨ k = "name" then .error .TypeError
        else .ok (.obj (.function c) (propSet ps k v))
  | _, _, _ => .error .TypeError

/-- The assignment `settings[k] = v` on the fresh object `settings`. -/
def settingsSet (settings : Props) (k : String) (v : JSVal) : Except JSError Props :=
  if k = "__proto__" then .error .notModelled else .ok (propSet settings k v)

/-- `config.urls`. -/
structure Urls where
  interaction : String
  homepage : JSVal

/-- The raw configuration, as far as `reduceConfiguration` reads it:
`config.config` (its own properties) and `config.urls`. -/
structure RawConfig where
  config : Props
  urls : Urls

/-- One round of the inner loop, `settings[k][ek] = config.config[k + "Extras"][ek]`. -/
def overlayStep (extras : JSVal) (k : String) (settings : Props) (ek : String) :
    Except JSError Props := do
  let target ← (propGet settings k).setProp ek (extras.getProp ek)
  pure (propSet settings k target)

/-- The body of the loop over `Object.keys(def.config)`. -/
def mergeKey (defConfig config : Props) (settings : Props) (k : String) :
    Except JSError Props := do
  let settings ← settingsSet settings k
    (if (propGet config k).truthy then propGet config k else propGet defConfig k)
  if (propGet config (k ++ "Extras")).truthy then
    (propGet config (k ++ "Extras")).ownKeys.foldlM
      (overlayStep (propGet config (k ++ "Extras")) k) settings
  else
    pure settings

/-- The loop of lines 141-149: every default key is merged in turn. -/
def mergeDefaults (defConfig config : Props) : Except JSError Props :=
  (propKeys defConfig).foldlM (mergeKey defConfig config) []

/-- `reduceConfiguration(config)`, with the defaults `def.config` of the absent
`settings.js` as a parameter; the result is the `settings` object. -/
def reduceConfiguration (defConfig : Props) (config : RawConfig) : Except JSError Props := do
  let settings ← mergeDefaults defConfig config.config
  let confirmUrl := config.urls.interaction
  let settings := propSet settings "interactionUrl"
    (.obj (.function (.interactionUrl confirmUrl)) [])
  let settings ←
    if config.urls.homepage.truthy then do
      let discovery ← (propGet settings "discovery").setProp "service_documentation"
        config.urls.homepage
      pure (propSet settings "discovery" discovery)
    else
      pure settings
  let settings := propSet settings "findById" (.obj (.function .findById) [])
  pure settings

/-- The value the loop picks for `k` before any extras: the override when it is
truthy, the default otherwise. -/
def baseValue (defConfig config : Props) (k : String) : JSVal :=
  if (propGet config k).truthy then propGet config k else propGet defConfig k

/-- The value `reduceConfiguration` stores under a default key inside the
loop: the base value with the extras written onto it one by one. -/
def mergedValue (defConfig config : Props) (k : String) : Except JSError JSVal :=
  if (propGet config (k ++ "Extras")).truthy then
    (propGet config (k ++ "Extras")).ownKeys.foldlM
      (fun (acc : JSVal) ek => acc.setProp ek ((propGet config (k ++ "Extras")).getProp ek))
      (baseValue defConfig config k)
  else
    pure (baseValue defConfig config k)

/-- Defaults of the counterexamples: a switch that is on, a discovery document
and the two provider callbacks. -/
def sampleDefaults : Props :=
  [("refreshTokenRotation", .bool true),
   ("discovery", .obj .plain [("service_documentation", .undefined)]),
   ("interactionUrl", .obj (.function (.native "interactionUrl")) []),
   ("findById", .obj (.function (.native "findById")) [])]

/-- A raw configuration that switches `refreshTokenRotation` off. -/
def switchOffConfig : RawConfig :=
  { config := [("refreshTokenRotation", .bool false)],
    urls := { interaction := "/interaction/", homepage := .undefined } }

/-- A raw configuration that overlays `discovery` and names a homepage. -/
def discoveryExtrasConfig : RawConfig :=
  { config := [("discoveryExtras", .obj .plain [("service_documentation", .str "https://docs.example/")])],
    urls := { interaction := "/interaction/", homepage := .str "https://home.example/" } }

/-- A raw configuration that overrides `refreshTokenRotation` with a string and
leaves everything else to the defaults. -/
def overrideConfig : RawConfig :=
  { config := [("refreshTokenRotation", .str "rotateAndConsume")],
    urls := { interaction := "/interaction/", homepage := .undefined } }

/-- A raw configuration that overlays the default `discovery` document without
naming a homepage. -/
def overlayConfig : RawConfig :=
  { config := [("discoveryExtras", .obj .plain [("service_documentation", .str "https://docs.example/")])],
    urls := { interaction := "/interaction/", homepage := .undefined } }

/-- The merge rule read literally: whatever value the override supplies for a
default key without extras becomes the effective value, and the default is
used only when the override supplies none. -/
def SuppliedOverrideWins : Prop :=
  ∀ (defConfig : Props) (config : RawConfig) (settings : Props) (k : String),
    reduceConfiguration defConfig config = .ok settings →
    k ∈ propKeys defConfig →
    k ++ "Extras" ∉ propKeys config.config →
    (k ∈ propKeys config.config → propGet settings k = propGet config.config k) ∧
    (k ∉ propKeys config.config → propGet settings k = propGet defConfig k)

/-- The overlay rule read literally: for every default key with an object
base value and an extras object, each extras property is found on the
effective value and every other property of the base value is untouched. -/
def ExtrasAlwaysOverlaid : Prop :=
  ∀ (defConfig : Props) (config : RawConfig) (settings : Props) (k : String)
    (kind ekind : ObjKind) (bps eps : Props),
    reduceConfiguration defConfig config = .ok settings →
    k ∈ propKeys defConfig →
    propGet config.config (k ++ "Extras") = .obj ekind eps →
    baseValue defConfig config.config k = .obj kind bps →
    (∀ ek ∈ propKeys eps, (propGet settings k).getProp ek = propGet eps ek) ∧
    (∀ p, p ∉ propKeys eps → (propGet settings k).getProp p = propGet bps p)

/-- The settings `reduceConfiguration` builds from `overrideConfig`. -/
def overrideSettings : Props :=
  [("refreshTokenRotation", .str "rotateAndConsume"),
   ("discovery", .obj .plain [("service_documentation", .undefined)]),
   ("interactionUrl", .obj (.function (.interactionUrl "/interaction/")) []),
   ("findById", .obj (.function .findById) [])]

/-- The settings `reduceConfiguration` builds from `switchOffConfig`: the
switch is still on. -/
def switchOffSettings : Props :=
  [("refreshTokenRotation", .bool true),
   ("discovery", .obj .plain [("service_documentation", .undefined)]),
   ("interactionUrl", .obj (.function (.interactionUrl "/interaction/")) []),
   ("findById", .obj (.function .findById) [])]

/-- The settings `reduceConfiguration` builds from `overlayConfig`. -/
def overlaySettings : Props :=
  [("refreshTokenRotation", .bool true),
   ("discovery", .obj .plain [("service_documentation", .str "https://docs.example/")]),
   ("interactionUrl", .obj (.function (.interactionUrl "/interaction/")) []),
   ("findById", .obj (.function .findById) [])]

/-- The settings `reduceConfiguration` builds from `discoveryExtrasConfig`: the
homepage has replaced the overlaid documentation link. -/
def discoveryExtrasSettings : Props :=
  [("refreshTokenRotation", .bool true),
   ("discovery", .obj .plain [("service_documentation", .str "https://home.example/")]),
   ("interactionUrl", .obj (.function (.interactionUrl "/interaction/")) []),
   ("findById", .obj (.function .findById) [])]

/-- A raw configuration that supplies its own `findById`. -/
def callbackConfig : RawConfig :=
  { config := [("findById", .obj .plain [("lookup", .str "custom")])],
    urls := { interaction := "/interaction/", homepage := .undefined } }

/-- A raw configuration that supplies its own `findById` and an overlay for
it. -/
def callbackExtrasConfig : RawConfig :=
  { config := [("findById", .obj .plain [("lookup", .str "custom")]),
               ("findByIdExtras", .obj .plain [("cache", .bool true)])],
    urls := { interaction := "/interaction/", homepage := .undefined } }

/-! ## Part 3: `Configurator.accountById` and `Configurator.accountByLogin`

The directory (`adapters/ldapmanager.js`), the account store
(`adapters/factory.js`) and the `Account` class (`account.js`) are external to
the two methods; they enter as parameters, and every call made to them is
recorded.  A directory call is awaited: it resolves with a value or rejects
with an error, and `accountByLogin` has no `try`/`catch` around either
`await`. -/

/-- A search filter as handed to the directory: a string, or a list of
filters (a JavaScript array). -/
inductive Filter where
  | str (s : String)
  | list (items : List Filter)

/-- `instanceConfig.ldap.organization.Account`: `source`, `class` and `id` are
always present, `bind`, `filter` and `scope` are optional. -/
structure AccountInfo where
  source : String
  /-- The field `class`. -/
  objectClass : String
  id : String
  bind : Option String
  filter : Option Filter
  scope : Option String

/-- `a || b` for an optional string and a default. -/
def orElse (a : Option String) (b : String) : String :=
  match a with
  | some s => if s != "" then s else b
  | none => b

/-- ToBoolean of the optional `filter`: absent and the empty string are falsy,
every array is truthy. -/
def filterTruthy : Option Filter → Bool
  | none => false
  | some (.str s) => s != ""
  | some (.list _) => true

/-- `arr.concat(x)`: an array argument is spread, anything else is appended as
one element. -/
def concat (arr : List Filter) : Filter → List Filter
  | .list items => arr ++ items
  | .str s => arr ++ [.str s]

/-- A directory entry: attribute names with their values. -/
abbrev Entry := Props

/-- The error a directory call rejects with. -/
inductive DirectoryError where
  /-- The directory cannot be reached. -/
  | connectionFailed
  /-- Any other failure of the operation. -/
  | operationFailed (message : String)
  deriving DecidableEq

/-- A bound connection, as far as `accountByLogin` uses it: what
`await connection.findBase()` comes to, a rejection or the resolved value,
`none` standing for `null`. -/
structure Connection where
  findBase : Except DirectoryError (Option (List Entry))

/-- Modelled from the spec: `account.js` is absent.  An account owns the
record it was built from and the identifier used to resolve it. -/
structure Account where
  userData : JSVal
  userid : JSVal

/-- The calls `accountByLogin` makes to its collaborators, in order. -/
inductive Call where
  | findAndBind (filter : List Filter) (pwd : String) (scope : String)
  | findBase
  | adapterFind (userid : JSVal)

/-- The collaborators of the account resolver: the organization settings, the
directory reached through `findConnection(instanceConfig)(source)` and the
`find` of the `Account` adapter.  `findAndBind source filter pwd scope` is
what `await ldap.findAndBind(filter, pwd, scope)` comes to on the handle for
`source`: a rejection, or the resolved value, `none` standing for a falsy
one. -/
structure AccountEnv where
  accountInfo : AccountInfo
  findAndBind : String → List Filter → String → String →
    Except DirectoryError (Option Connection)
  adapterFind : JSVal → JSVal

/-- `accountById(userid)`: the account, or `none` for `null`, with the calls
made. -/
def accountById (env : AccountEnv) (userid : JSVal) : Option Account × List Call :=
  let userData := env.adapterFind userid
  if userData.truthy then
    (some { userData := userData, userid := userid }, [.adapterFind userid])
  else
    (none, [.adapterFind userid])

/-- `accountByLogin(login, pwd)`: the rejection, or the resolved account with
`none` for `null`, together with the calls made. -/
def accountByLogin (env : AccountEnv) (login pwd : String) :
    Except DirectoryError (Option Account) × List Call :=
  let ldap := env.findAndBind env.accountInfo.source
  let accountField := orElse env.accountInfo.bind env.accountInfo.id
  let accountFilter : List Filter :=
    [.str "&", .list [.str ("objectClass=" ++ env.accountInfo.objectClass)],
      .list [.str (accountField ++ "=" ++ login)]]
  let accountFilter :=
    if filterTruthy env.accountInfo.filter then
      match env.accountInfo.filter with
      | some f => concat accountFilter f
      | none => accountFilter
    else accountFilter
  let accountScope := orElse env.accountInfo.scope "sub"
  match ldap accountFilter pwd accountScope with
  | .error err => (.error err, [.findAndBind accountFilter pwd accountScope])
  | .ok none => (.ok none, [.findAndBind accountFilter pwd accountScope])
  | .ok (some connection) =>
    match connection.findBase with
    | .error err => (.error err, [.findAndBind accountFilter pwd accountScope, .findBase])
    | .ok none => (.ok none, [.findAndBind accountFilter pwd accountScope, .findBase])
    | .ok (some []) => (.ok none, [.findAndBind accountFilter pwd accountScope, .findBase])
    | .ok (some (first :: _)) =>
      let found := accountById env (propGet first env.accountInfo.id)
      (.ok found.1, [.findAndBind accountFilter pwd accountScope, .findBase] ++ found.2)

/-- The filter of the contract: the conjunction of the class test and the
login test, followed by the configured fragments. -/
def expectedFilter (info : AccountInfo) (login : String) : List Filter :=
  let attr :=
    match info.bind with
    | some b => if b = "" then info.id else b
    | none => info.id
  let fragments : List Filter :=
    match info.filter with
    | some (.list items) => items
    | some (.str s) => if s = "" then [] else [.str s]
    | none => []
  [Filter.str "&", Filter.list [Filter.str ("objectClass=" ++ info.objectClass)],
    Filter.list [Filter.str (attr ++ "=" ++ login)]] ++ fragments

/-- The scope of the contract: the configured one, subtree otherwise. -/
def expectedScope (info : AccountInfo) : String :=
  match info.scope with
  | some s => if s = "" then "sub" else s
  | none => "sub"

/-- The bind calls among the recorded calls. -/
def bindCalls : List Call → List Call
  | [] => []
  | .findAndBind f p s :: cs => .findAndBind f p s :: bindCalls cs
  | _ :: cs => bindCalls cs

/-- The store lookups among the recorded calls. -/
def storeCalls : List Call → List Call
  | [] => []
  | .adapterFind u :: cs => .adapterFind u :: storeCalls cs
  | _ :: cs => storeCalls cs

/-- Organization settings of the examples: login by `mail`, identity in `uid`. -/
def sampleAccountInfo : AccountInfo :=
  { source := "ldap", objectClass := "inetOrgPerson", id := "uid", bind := some "mail",
    filter := some (.list [.list [.str "active=TRUE"]]), scope := none }

/-- The directory entry of the examples. -/
def sampleEntry : Entry :=
  [("uid", .str "u1001"), ("mail", .str "alice@example.org")]

/-- A directory that binds every login and finds `sampleEntry`, next to an
account store that has no record at all. -/
def outOfSyncEnv : AccountEnv :=
  { accountInfo := sampleAccountInfo,
    findAndBind := fun _ _ _ _ => .ok (some { findBase := .ok (some [sampleEntry]) }),
    adapterFind := fun _ => .undefined }

/-- A directory that binds every login and finds `sampleEntry`, next to an
account store holding a record for every identifier. -/
def inSyncEnv : AccountEnv :=
  { accountInfo := sampleAccountInfo,
    findAndBind := fun _ _ _ _ => .ok (some { findBase := .ok (some [sampleEntry]) }),
    adapterFind := fun _ => .obj .plain [("cn", .str "Alice")] }

/-- A directory whose connection fails: the bind call rejects. -/
def unreachableEnv : AccountEnv :=
  { accountInfo := sampleAccountInfo,
    findAndBind := fun _ _ _ _ => .error .connectionFailed,
    adapterFind := fun _ => .obj .plain [("cn", .str "Alice")] }

/-- A directory that refuses every bind: the bind call resolves without a
connection. -/
def wrongPasswordEnv : AccountEnv :=
  { accountInfo := sampleAccountInfo,
    findAndBind := fun _ _ _ _ => .ok none,
    adapterFind := fun _ => .obj .plain [("cn", .str "Alice")] }

/-- A directory that binds every login and finds no entry below the bound
one. -/
def emptySearchEnv : AccountEnv :=
  { accountInfo := sampleAccountInfo,
    findAndBind := fun _ _ _ _ => .ok (some { findBase := .ok (some []) }),
    adapterFind := fun _ => .obj .plain [("cn", .str "Alice")] }

/-- The lookup contract read literally: a successful bind with one matching
entry always yields an account identified by the entry's id attribute. -/
def BoundLoginYieldsAccount : Prop :=
  ∀ (env : AccountEnv) (login pwd : String) (connection : Connection) (e : Entry),
    env.findAndBind env.accountInfo.source
        (expectedFilter env.accountInfo login) pwd (expectedScope env.accountInfo)
      = .ok (some connection) →
    connection.findBase = .ok (some [e]) →
    ∃ account, (accountByLogin env login pwd).1 = .ok (some account) ∧
      account.userid = propGet e env.accountInfo.id

/-- The error contract read literally: a failed connection, a failed bind and
an empty base search all come back as `null`, never as a rejection, and the
account store is not consulted. -/
def DirectoryErrorsYieldNull : Prop :=
  ∀ (env : AccountEnv) (login pwd : String),
    (env.findAndBind env.accountInfo.source (expectedFilter env.accountInfo login)
        pwd (expectedScope env.accountInfo) = .error .connectionFailed ∨
      env.findAndBind env.accountInfo.source (expectedFilter env.accountInfo login)
        pwd (expectedScope env.accountInfo) = .ok none ∨
      ∃ connection,
        env.findAndBind env.accountInfo.source (expectedFilter env.accountInfo login)
          pwd (expectedScope env.accountInfo) = .ok (some connection) ∧
        (connection.findBase = .ok none ∨ connection.findBase = .ok (some []))) →
    (accountByLogin env login pwd).1 = .ok none ∧
    storeCalls (accountByLogin env login pwd).2 = []

/-! ## Part 4: `Configurator.findConfiguration` and `checkConfigurationDir`

The process environment, the `path` module and the file system are
parameters.  The file system is read at one instant: all `stat` calls of the
`Promise.all` see the same state. -/

/-- The code points `String.prototype.trim` strips: WhiteSpace and
LineTerminator. -/
def isJsSpace (c : Char) : Bool :=
  c.val = 0x09 || c.val = 0x0A || c.val = 0x0B || c.val = 0x0C || c.val = 0x0D ||
  c.val = 0x20 || c.val = 0xA0 || c.val = 0x1680 ||
  (0x2000 ≤ c.val && c.val ≤ 0x200A) ||
  c.val = 0x2028 || c.val = 0x2029 || c.val = 0x202F || c.val = 0x205F ||
  c.val = 0x3000 || c.val = 0xFEFF

/-- `s.trim()`. -/
def jsTrim (s : String) : String :=
  String.mk (((s.toList.dropWhile isJsSpace).reverse.dropWhile isJsSpace).reverse)

/-- `split` on a one-character separator, over the characters. -/
def splitChars (d : Char) : List Char → List (List Char)
  | [] => [[]]
  | c :: cs =>
    if c = d then [] :: splitChars d cs
    else
      match splitChars d cs with
      | [] => [[c]]
      | w :: ws => (c :: w) :: ws

/-- `s.split(d)` for a one-character separator. -/
def jsSplit (s : String) (d : Char) : List String :=
  (splitChars d s.toList).map String.mk

/-- What `findConfiguration` reads from its surroundings. -/
structure System where
  /-- `process.platform`. -/
  platform : String
  /-- `process.env.OIDC_CONFIG`. -/
  OIDC_CONFIG : Option String
  /-- `process.env.OIDC_CONFIG_FILENAME`. -/
  OIDC_CONFIG_FILENAME : Option String
  /-- `path.delimiter`. -/
  delimiter : Char
  /-- `path.join` of two segments. -/
  pathJoin : String → String → String
  /-- `path.join(path.dirname(__dirname), "configuration")`. -/
  bundledDir : String
  /-- Whether `fs.stat` succeeds on the path and reports a regular file. -/
  isFile : String → Bool

/-- The `extraPaths` argument: a delimited string or an array of
directories. -/
inductive ExtraPaths where
  | text (s : String)
  | list (dirs : List String)

/-- `extraPaths && extraPaths.length`. -/
def ExtraPaths.nonEmpty : ExtraPaths → Bool
  | .text s => s != ""
  | .list dirs => !dirs.isEmpty

/-- The array `extraPaths` is after the `typeof extraPaths === "string"`
conversion. -/
def ExtraPaths.toArray (sys : System) : ExtraPaths → List String
  | .text s => jsSplit (jsTrim s) sys.delimiter
  | .list dirs => dirs

/-- `envVar && envVar.trim().length`. -/
def envSet : Option String → Bool
  | none => false
  | some s => s != "" && jsTrim s != ""

/-- `this.cfgFilename` as `findConfiguration` sets it. -/
def cfgFilename (sys : System) : String :=
  match sys.OIDC_CONFIG_FILENAME with
  | some fn => if envSet (some fn) then jsTrim fn else "settings.json"
  | none => "settings.json"

/-- `checkConfigurationDir(filename)`: the joined file name, or `none` for
`false`. -/
def checkConfigurationDir (sys : System) (filename : String) : Option String :=
  let filename := sys.pathJoin (jsTrim filename) (cfgFilename sys)
  if sys.isFile filename then some filename else none

/-- The `searchPath` array as `findConfiguration` assembles it. -/
def searchPath (sys : System) (extraPaths : ExtraPaths) (force : Bool) : List String :=
  let searchPath := [sys.bundledDir]
  let searchPath := if sys.platform ≠ "win32" then "/etc/oidc" :: searchPath else searchPath
  let searchPath :=
    match sys.OIDC_CONFIG with
    | some envPath =>
      if envSet (some envPath) then jsSplit (jsTrim envPath) sys.delimiter ++ searchPath
      else searchPath
    | none => searchPath
  if extraPaths.nonEmpty then
    if force then extraPaths.toArray sys else extraPaths.toArray sys ++ searchPath
  else searchPath

/-- `validPaths.find((path) => path !== false)`. -/
def firstValid : List (Option String) → Option String
  | [] => none
  | some p :: _ => some p
  | none :: rest => firstValid rest

/-- `findConfiguration(extraPaths, force)`: the file handed to
`loadConfiguration`, or the thrown message. -/
def findConfiguration (sys : System) (extraPaths : ExtraPaths) (force : Bool) :
    Except String String :=
  let validPaths := (searchPath sys extraPaths force).map (checkConfigurationDir sys)
  match firstValid validPaths with
  | none => .error "Cannot find OIDC configuration file"
  | some filename =>
    if filename = "" then .error "Cannot find OIDC configuration file"
    else .ok filename

/-- The entries of `OIDC_CONFIG`. -/
def envEntries (sys : System) : List String :=
  match sys.OIDC_CONFIG with
  | some envPath => if envSet (some envPath) then jsSplit (jsTrim envPath) sys.delimiter else []
  | none => []

/-- The entries of `extraPaths`. -/
def extraEntries (sys : System) (extraPaths : ExtraPaths) : List String :=
  if extraPaths.nonEmpty then extraPaths.toArray sys else []

/-- The candidates that do not come from the argument: `OIDC_CONFIG`, then
`/etc/oidc` unless on win32, then the bundled directory. -/
def standardCandidates (sys : System) : List String :=
  envEntries sys ++ (if sys.platform = "win32" then [] else ["/etc/oidc"]) ++ [sys.bundledDir]

/-- The priority order read literally: with `force` the entries of
`extraPaths` are the only candidates. -/
def statedCandidates (sys : System) (extraPaths : ExtraPaths) (force : Bool) : List String :=
  if force then extraEntries sys extraPaths
  else extraEntries sys extraPaths ++ standardCandidates sys

/-- The priority order the code follows: `force` replaces the standard
candidates only when `extraPaths` has entries. -/
def candidates (sys : System) (extraPaths : ExtraPaths) (force : Bool) : List String :=
  if force && extraPaths.nonEmpty then extraEntries sys extraPaths
  else extraEntries sys extraPaths ++ standardCandidates sys

/-- The file looked for in a candidate directory. -/
def candidateFile (sys : System) (dir : String) : String :=
  sys.pathJoin (jsTrim dir) (cfgFilename sys)

/-- Resolution over a list of candidates: the file of the first directory
that has one, and the not-found error when none has. -/
def FirstMatch (sys : System) (dirs : List String) (result : Except String String) : Prop :=
  (∃ before d tail, dirs = before ++ d :: tail ∧
      (∀ x ∈ before, sys.isFile (candidateFile sys x) = false) ∧
      sys.isFile (candidateFile sys d) = true ∧
      result = .ok (candidateFile sys d)) ∨
  ((∀ x ∈ dirs, sys.isFile (candidateFile sys x) = false) ∧
      result = .error "Cannot find OIDC configuration file")

/-- The resolution contract read literally, with `force` making the entries of
`extraPaths` the only candidates. -/
def ForcedExtraPathsOnly : Prop :=
  ∀ (sys : System) (extraPaths : ExtraPaths) (force : Bool),
    (∀ a b, sys.pathJoin a b ≠ "") →
    FirstMatch sys (statedCandidates sys extraPaths force)
      (findConfiguration sys extraPaths force)

/-- A join without normalization, for the examples. -/
def plainJoin (a b : String) : String :=
  a ++ "/" ++ b

/-- A POSIX host without environment overrides whose only configuration file
is `/etc/oidc/settings.json`. -/
def posixHost : System :=
  { platform := "linux", OIDC_CONFIG := none, OIDC_CONFIG_FILENAME := none,
    delimiter := ':', pathJoin := plainJoin, bundledDir := "/opt/oidc/configuration",
    isFile := fun p => p == "/etc/oidc/settings.json" }

/-! ## Part 5: `Configurator.loadMappings` and `loadMappingFile`

Every `loadMappingFile` runs up to its `await fs.readFile` at once, so the
early returns happen in key order; the reads then settle in an order the
code does not control, and each settled read parses and stores its
document.  The embedding takes that settling order as an argument. -/

/-- One entry of `instanceConfig.ldap.organization`, as far as the loader
reads it: the optional `mapping` path. -/
structure Organization where
  mapping : Option String

/-- What the mapping loader reads from its surroundings. -/
structure MappingEnv where
  /-- `instanceConfig.ldap.organization`; `none` stands for a falsy entry. -/
  organization : List (String × Option Organization)
  /-- `this.referencePath`. -/
  referencePath : String
  /-- `path.isAbsolute`. -/
  isAbsolute : String → Bool
  /-- `path.join` of two segments. -/
  pathJoin : String → String → String
  /-- `String.prototype.toLowerCase`. -/
  toLowerCase : String → String
  /-- `fs.readFile` followed by `toString("utf8")`; `none` when the read
  fails. -/
  readFile : String → Option String
  /-- `JSON.parse`; `none` when it throws. -/
  jsonParse : String → Option JSVal

/-- Why a mapping load rejects. -/
inductive MappingError where
  | unreadable (file : String)
  | malformed (file : String)
  deriving DecidableEq

/-- `Object.keys(instanceConfig.ldap.organization)`. -/
def orgKeys (env : MappingEnv) : List String :=
  env.organization.map Prod.fst

/-- `instanceConfig.ldap.organization[name]`, `none` when absent or falsy. -/
def orgGet : List (String × Option Organization) → String → Option Organization
  | [], _ => none
  | (k, v) :: rest, name => if k = name then v else orgGet rest name

/-- The assignment `instanceConfig.mapping[name] = result` on the plain object
`{}`, as far as own properties go: the name `__proto__` reaches the accessor
inherited from `Object.prototype` and creates no own property; every other
name is written as an own property. -/
def mappingSet (mapping : Props) (name : String) (result : JSVal) : Props :=
  if name = "__proto__" then mapping else propSet mapping name result

/-- `loadMappingFile(name)` acting on the own properties of
`instanceConfig.mapping`. -/
def loadMappingFile (env : MappingEnv) (mapping : Props) (name : String) :
    Except MappingError Props :=
  if name = "" then .ok mapping
  else
    let mapFile : Option String :=
      match orgGet env.organization name with
      | some org => org.mapping
      | none => none
    match mapFile with
    | none => .ok mapping
    | some mapFile =>
      if mapFile = "" then .ok mapping
      else
        let mapFile :=
          if env.isAbsolute mapFile then mapFile else env.pathJoin env.referencePath mapFile
        let name := env.toLowerCase name
        match env.readFile mapFile with
        | none => .error (.unreadable mapFile)
        | some data =>
          match env.jsonParse data with
          | none => .error (.malformed mapFile)
          | some result => .ok (mappingSet mapping name result)

/-- `loadMappings()` with the loads settling in the given order: the final
`instanceConfig.mapping`, or the rejection. -/
def loadMappingsIn (env : MappingEnv) (order : List String) : Except MappingError Props :=
  order.foldlM (loadMappingFile env) []

/-- The file an organization declares: its non-empty `mapping` path, taken
relative to the reference path unless absolute. -/
def mappingPath (env : MappingEnv) (name : String) : Option String :=
  match orgGet env.organization name with
  | none => none
  | some org =>
    match org.mapping with
    | none => none
    | some mapFile =>
      if mapFile = "" then none
      else some (if env.isAbsolute mapFile then mapFile
                 else env.pathJoin env.referencePath mapFile)

/-- The file an organization's load reads, `none` when the load returns
early: the name is empty, or no non-empty mapping path is declared. -/
def declaredFile (env : MappingEnv) (name : String) : Option String :=
  if name = "" then none else mappingPath env name

/-- The parsed document of a file, or the reason it cannot be had. -/
def parsedFile (env : MappingEnv) (file : String) : Except MappingError JSVal :=
  match env.readFile file with
  | none => .error (.unreadable file)
  | some data =>
    match env.jsonParse data with
    | none => .error (.malformed file)
    | some result => .ok result

/-- The mapping contract read literally: on completion every organization
that declares a non-empty mapping path has its parsed document stored under
its lowercased name. -/
def EveryDeclaredMappingStored : Prop :=
  ∀ (env : MappingEnv) (order : List String) (mapping : Props),
    order.Perm (orgKeys env) →
    (orgKeys env).Nodup →
    loadMappingsIn env order = .ok mapping →
    ∀ name ∈ orgKeys env, ∀ file doc,
      mappingPath env name = some file →
      parsedFile env file = .ok doc →
      propGet mapping (env.toLowerCase name) = doc

/-- Lower-casing of the letters `A` to `Z`, for the examples. -/
def asciiLower (s : String) : String :=
  String.mk (s.toList.map fun c => if 'A' ≤ c ∧ c ≤ 'Z' then Char.ofNat (c.toNat + 32) else c)

/-- The POSIX test for an absolute path, for the examples. -/
def posixAbsolute (p : String) : Bool :=
  match p.toList with
  | c :: _ => c == '/'
  | [] => false

/-- Two organizations whose names differ in case only, each with its own
mapping file. -/
def caseClashEnv : MappingEnv :=
  { organization := [("Account", some { mapping := some "account.json" }),
                     ("account", some { mapping := some "/etc/oidc/legacy.json" })],
    referencePath := "/etc/oidc",
    isAbsolute := posixAbsolute,
    pathJoin := plainJoin,
    toLowerCase := asciiLower,
    readFile := fun f =>
      if f = "/etc/oidc/account.json" then some "1"
      else if f = "/etc/oidc/legacy.json" then some "2"
      else none,
    jsonParse := fun s =>
      if s = "1" then some (.num 1) else if s = "2" then some (.num 2) else none }

/-- Three organizations: one with a mapping file, one without a `mapping`
field, one with an empty path. -/
def threeOrgEnv : MappingEnv :=
  { organization := [("Account", some { mapping := some "account.json" }),
                     ("Group", some { mapping := none }),
                     ("Role", some { mapping := some "" })],
    referencePath := "/etc/oidc",
    isAbsolute := posixAbsolute,
    pathJoin := plainJoin,
    toLowerCase := asciiLower,
    readFile := fun f => if f = "/etc/oidc/account.json" then some "1" else none,
    jsonParse := fun s => if s = "1" then some (.num 1) else none }

/-- An organization with the empty name that declares a mapping file. -/
def emptyNameEnv : MappingEnv :=
  { organization := [("", some { mapping := some "/etc/oidc/root.json" })],
    referencePath := "/etc/oidc",
    isAbsolute := posixAbsolute,
    pathJoin := plainJoin,
    toLowerCase := asciiLower,
    readFile := fun f => if f = "/etc/oidc/root.json" then some "1" else none,
    jsonParse := fun s => if s = "1" then some (.num 1) else none }

/-- An organization named `__proto__` that declares a mapping file. -/
def protoEnv : MappingEnv :=
  { organization := [("__proto__", some { mapping := some "/etc/oidc/proto.json" })],
    referencePath := "/etc/oidc",
    isAbsolute := posixAbsolute,
    pathJoin := plainJoin,
    toLowerCase := asciiLower,
    readFile := fun f => if f = "/etc/oidc/proto.json" then some "1" else none,
    jsonParse := fun s => if s = "1" then some (.num 1) else none }

/-! ## Part 6: `Configurator.mergeStore`

The key store of `node-jose` is a library outside the repository; its
behaviour is taken from the specification. -/

/-- Modelled from the spec: `node-jose` is absent.  A key entry with its
standard attributes: key-id, type, use, and the key material (public and
private components). -/
structure JWK where
  kid : String
  kty : String
  use : String
  material : String
  deriving DecidableEq

/-- Why a key import rejects. -/
inductive KeyError where
  | duplicateKid (kid : String)
  deriving DecidableEq

/-- The key-ids of a list of keys. -/
def kids (keys : List JWK) : List String :=
  keys.map JWK.kid

/-- Modelled from the spec: `jwks.add(k)` of `node-jose` is absent.  It
appends the imported key and rejects a key-id the store already holds. -/
def joseAdd (jwks : List JWK) (k : JWK) : Except KeyError (List JWK) :=
  if k.kid ∈ kids jwks then .error (.duplicateKid k.kid) else .ok (jwks ++ [k])

/-- Modelled from the spec: `jose.JWK.asKeyStore(json)` of `node-jose` is
absent.  The store is built by importing every key of `json.keys`. -/
def asKeyStore (json : List JWK) : Except KeyError (List JWK) :=
  json.foldlM joseAdd []

/-- Modelled from the spec: `jwks.toJSON(true)` of `node-jose` is absent.  Every
key of the store is listed, private components included. -/
def toJSON (jwks : List JWK) : List JWK :=
  jwks

/-- The two named stores. -/
inductive StoreName where
  | certificates
  | integrityKeys
  deriving DecidableEq

/-- The store fields of the `Configurator` instance; each holds the `keys`
array of its key set. -/
structure Configurator where
  certificates : List JWK
  integrityKeys : List JWK

/-- The stubs the constructor creates, `{keys: []}` twice. -/
def Configurator.fresh : Configurator :=
  { certificates := [], integrityKeys := [] }

/-- `this[type]`. -/
def Configurator.store (self : Configurator) : StoreName → List JWK
  | .certificates => self.certificates
  | .integrityKeys => self.integrityKeys

/-- `this[type] = keys`. -/
def Configurator.setStore (self : Configurator) (type : StoreName) (keys : List JWK) :
    Configurator :=
  match type with
  | .certificates => { self with certificates := keys }
  | .integrityKeys => { self with integrityKeys := keys }

/-- The store that `type` does not name. -/
def StoreName.other : StoreName → StoreName
  | .certificates => .integrityKeys
  | .integrityKeys => .certificates

/-- `mergeStore(keystore, type)`, the keys of `keystore.keys` being imported in
list order. -/
def mergeStore (self : Configurator) (keystore : List JWK) (type : StoreName) :
    Except KeyError Configurator := do
  let jwks ← asKeyStore (self.store type)
  let jwks ← keystore.foldlM joseAdd jwks
  pure (self.setStore type (toJSON jwks))

/-- Two merges in a row into the same store. -/
def mergeTwice (first second : List JWK) (type : StoreName) : Except KeyError Configurator := do
  let self ← mergeStore Configurator.fresh first type
  mergeStore self second type

/-- Two signing keys for the examples. -/
def sampleKeysA : List JWK :=
  [{ kid := "sig-2017", kty := "RSA", use := "sig", material := "rsa-1" },
   { kid := "enc-2017", kty := "RSA", use := "enc", material := "rsa-2" }]

/-- One further key for the examples. -/
def sampleKeysB : List JWK :=
  [{ kid := "sig-2018", kty := "EC", use := "sig", material := "ec-1" }]

/-! ## Part 7: `Configurator.getAcr` -/

/-- A number as the comparison `>=` sees it. -/
inductive JSNum where
  | nan
  | fin (q : ℚ)
  | posInf
  | negInf

/-- `n >= 0` for a number: false for `NaN`. -/
def JSNum.geZero : JSNum → Bool
  | .nan => false
  | .fin q => decide (0 ≤ q)
  | .posInf => true
  | .negInf => false

/-- Scan of `String.prototype.indexOf`: the first position, counted from `i`,
at which `pat` occurs, or `-1`. -/
def strIndexFrom (pat : List Char) : List Char → Nat → Int
  | [], i => if pat = [] then (i : Int) else -1
  | c :: cs, i => if pat.isPrefixOf (c :: cs) then (i : Int) else strIndexFrom pat cs (i + 1)

/-- `s.indexOf(pat)`. -/
def strIndexOf (s pat : String) : Int :=
  strIndexFrom pat.toList s.toList 0

/-- The characters a numeric string literal can begin with, once leading
white space is gone: a digit, a sign, the decimal point, or the `I` of
`Infinity`. -/
def startsNumeric (c : Char) : Bool :=
  c.isDigit || c = '+' || c = '-' || c = '.' || c = 'I'

/-- ToNumber of a string.  The empty and the all-blank string give `0`; a
string that does not begin like a numeric literal gives `NaN`; the value of
the remaining strings is left to `numericLiteral`. -/
def stringToNumber (numericLiteral : List Char → JSNum) (s : String) : JSNum :=
  match s.toList.dropWhile isJsSpace with
  | [] => .fin 0
  | c :: cs => if startsNumeric c then numericLiteral (c :: cs) else .nan

/-- `retval >= 0` for the result of `find`: `none` stands for `undefined`,
whose ToNumber is `NaN`. -/
def geZero (numericLiteral : List Char → JSNum) : Option String → Bool
  | none => false
  | some s => (stringToNumber numericLiteral s).geZero

/-- The property key a `find` result is converted to. -/
def toPropertyKey : Option String → String
  | none => "undefined"
  | some s => s

/-- `arr[key]` for an array of strings: the element at a canonical index, the
`length`, and `undefined` for any other key. -/
def arrayGet (arr : List String) (key : String) : JSVal :=
  if key = "length" then .num arr.length
  else
    match (List.range arr.length).find? (fun i => toString i = key) with
    | some i => match arr.get? i with
      | some v => .str v
      | none => .undefined
    | none => .undefined

/-- `getAcr()` over `this.config.acrValues`, a list of strings. -/
def getAcr (numericLiteral : List Char → JSNum) (acrValues : List String) : JSVal :=
  let retval := acrValues.find? (fun v => strIndexOf v "urn:" == 0)
  if geZero numericLiteral retval then arrayGet acrValues (toPropertyKey retval) else .null

/-! # Theorems -/

/-! ### Lemmas for the guard -/

theorem indexOfFrom_neg_iff (x : RefVal) (es : List RefVal) (i : Nat) :
    indexOfFrom x es i < 0 ↔ ∀ e ∈ es, e.strictEquals x = false := by
  induction es generalizing i with
  | nil => simp [indexOfFrom]
  | cons e es ih =>
    unfold indexOfFrom
    by_cases h : e.strictEquals x = true
    · simp [h]
    · simp only [Bool.not_eq_true] at h
      simp [h, ih (i + 1)]

theorem runAuthorize_cases (ctx : OidcContext) :
    (rejected ctx ∧
      runAuthorize ctx = (.error (.InvalidRequestError "invalid assertion request"), 0)) ∨
    (¬ rejected ctx ∧ runAuthorize ctx = (.ok (), 1)) := by
  obtain ⟨⟨authz, ⟨iss, azp⟩⟩, ⟨cid, uris⟩⟩ := ctx
  simp only [runAuthorize, authorize, rejected]
  by_cases h1 : authz.truthy = true
  · by_cases h2 : cid.strictEquals iss = true
    · right
      simp [h1, h2, next, ExceptT.run, StateT.run, bind, ExceptT.bind, ExceptT.mk,
        ExceptT.bindCont, StateT.bind, pure, ExceptT.pure, StateT.pure, modify, modifyGet,
        MonadStateOf.modifyGet, StateT.modifyGet, ExceptT.lift, liftM, monadLift,
        MonadLift.monadLift, Functor.map, StateT.map]
    · simp only [Bool.not_eq_true] at h2
      by_cases harr : uris.isArray = true
      · obtain ⟨a, es, rfl⟩ : ∃ a es, uris = RefVal.array a es := by
          cases uris <;> simp [RefVal.isArray] at harr ⊢
        by_cases h3 : indexOfFrom azp es 0 < 0
        · left
          have h4 := (indexOfFrom_neg_iff azp es 0).1 h3
          refine ⟨⟨h1, h2, Or.inl ⟨a, es, rfl, h4⟩⟩, ?_⟩
          simp [h1, h2, h3, next, RefVal.isArray, RefVal.indexOf, ExceptT.run, StateT.run,
            bind, ExceptT.bind, ExceptT.mk, ExceptT.bindCont, StateT.bind, pure,
            ExceptT.pure, StateT.pure, modify, modifyGet, MonadStateOf.modifyGet,
            StateT.modifyGet, ExceptT.lift, liftM, monadLift, MonadLift.monadLift,
            Functor.map, StateT.map, throw, throwThe, MonadExceptOf.throw]
        · right
          have h4 : ¬ ∀ e ∈ es, e.strictEquals azp = false :=
            fun h => h3 ((indexOfFrom_neg_iff azp es 0).2 h)
          constructor
          · rintro ⟨-, -, ⟨a', es', he, hall⟩ | ⟨hne, -⟩⟩
            · cases he
              exact h4 hall
            · exact hne a es rfl
          · simp [h1, h2, h3, next, RefVal.isArray, RefVal.indexOf, ExceptT.run, StateT.run,
              bind, ExceptT.bind, ExceptT.mk, ExceptT.bindCont, StateT.bind, pure,
              ExceptT.pure, StateT.pure, modify, modifyGet, MonadStateOf.modifyGet,
              StateT.modifyGet, ExceptT.lift, liftM, monadLift, MonadLift.monadLift,
              Functor.map, StateT.map, throw, throwThe, MonadExceptOf.throw]
      · have hna : ∀ a es, uris ≠ RefVal.array a es := by
          intro a es he
          subst he
          simp [RefVal.isArray] at harr
        by_cases h3 : uris.strictEquals azp = true
        · right
          constructor
          · rintro ⟨-, -, ⟨a', es', he, -⟩ | ⟨-, hne⟩⟩
            · exact hna a' es' he
            · rw [h3] at hne
              cases hne
          · simp [h1, h2, h3, harr, next, ExceptT.run, StateT.run,
              bind, ExceptT.bind, ExceptT.mk, ExceptT.bindCont, StateT.bind, pure,
              ExceptT.pure, StateT.pure, modify, modifyGet, MonadStateOf.modifyGet,
              StateT.modifyGet, ExceptT.lift, liftM, monadLift, MonadLift.monadLift,
              Functor.map, StateT.map, throw, throwThe, MonadExceptOf.throw]
        · simp only [Bool.not_eq_true] at h3
          left
          refine ⟨⟨h1, h2, Or.inr ⟨hna, h3⟩⟩, ?_⟩
          simp [h1, h2, h3, harr, next, ExceptT.run, StateT.run,
            bind, ExceptT.bind, ExceptT.mk, ExceptT.bindCont, StateT.bind, pure,
            ExceptT.pure, StateT.pure, modify, modifyGet, MonadStateOf.modifyGet,
            StateT.modifyGet, ExceptT.lift, liftM, monadLift, MonadLift.monadLift,
            Functor.map, StateT.map, throw, throwThe, MonadExceptOf.throw]
  · right
    constructor
    · rintro ⟨h, -⟩
      exact h1 h
    · simp [h1, next, ExceptT.run, StateT.run, bind, ExceptT.bind, ExceptT.mk,
        ExceptT.bindCont, StateT.bind, pure, ExceptT.pure, StateT.pure, modify, modifyGet,
        MonadStateOf.modifyGet, StateT.modifyGet, ExceptT.lift, liftM, monadLift,
        MonadLift.monadLift, Functor.map, StateT.map]

/-- C1: the guard raises `InvalidRequestError` without entering `next` exactly
when the grant is flagged, the issuer differs from the client and the
authorized party is neither in the redirect list nor equal to the single
value; in every other case nothing is raised and `next` is entered once.  On
the example request the matching list passes and the foreign list is
rejected. -/
theorem C1_authorize_rejects_iff :
    (∀ ctx : OidcContext,
      (runAuthorize ctx = (.error (.InvalidRequestError "invalid assertion request"), 0)
          ↔ rejected ctx) ∧
      (runAuthorize ctx = (.ok (), 1) ↔ ¬ rejected ctx)) ∧
    runAuthorize (exampleCtx ["https://b.example/cb"]) = (.ok (), 1) ∧
    runAuthorize (exampleCtx ["https://other.example/cb"])
      = (.error (.InvalidRequestError "invalid assertion request"), 0) := by
  refine ⟨fun ctx => ?_, by rfl, by rfl⟩
  rcases runAuthorize_cases ctx with ⟨hr, he⟩ | ⟨hr, he⟩
  · refine ⟨⟨fun _ => hr, fun _ => he⟩, ⟨fun h => ?_, fun h => absurd hr h⟩⟩
    rw [he] at h
    cases h
  · refine ⟨⟨fun h => ?_, fun h => absurd h hr⟩, ⟨fun _ => hr, fun _ => he⟩⟩
    rw [he] at h
    cases h

/-! ### Lemmas for `reduceConfiguration` -/

theorem propGet_propSet_same (ps : Props) (k : String) (v : JSVal) :
    propGet (propSet ps k v) k = v := by
  induction ps with
  | nil => simp [propSet, propGet]
  | cons p ps ih =>
    obtain ⟨k', v'⟩ := p
    by_cases h : k' = k
    · simp [propSet, propGet, h]
    · simp [propSet, propGet, h, ih]

theorem propGet_propSet_ne (ps : Props) (k j : String) (v : JSVal) (h : j ≠ k) :
    propGet (propSet ps k v) j = propGet ps j := by
  induction ps with
  | nil =>
    have h' : ¬ k = j := fun e => h e.symm
    simp [propSet, propGet, h']
  | cons p ps ih =>
    obtain ⟨k', v'⟩ := p
    by_cases hk : k' = k
    · subst hk
      have h' : ¬ k' = j := fun e => h e.symm
      simp [propSet, propGet, h']
    · by_cases hj : k' = j
      · subst hj
        simp [propSet, propGet, hk]
      · simp [propSet, propGet, hk, hj, ih]

theorem propSet_propSet (ps : Props) (k : String) (a b : JSVal) :
    propSet (propSet ps k a) k b = propSet ps k b := by
  induction ps with
  | nil => simp [propSet]
  | cons p ps ih =>
    obtain ⟨k', v'⟩ := p
    by_cases hk : k' = k
    · simp [propSet, hk]
    · simp [propSet, hk, ih]

theorem overlay_fold (extras : JSVal) (k : String) (keys : List String) :
    ∀ (settings : Props) (b : JSVal),
      keys.foldlM (overlayStep extras k) (propSet settings k b)
        = (keys.foldlM (fun (acc : JSVal) ek => acc.setProp ek (extras.getProp ek)) b).map
            (propSet settings k) := by
  induction keys with
  | nil =>
    intro settings b
    simp [Except.map, pure, Except.pure]
  | cons ek rest ih =>
    intro settings b
    simp only [List.foldlM_cons, overlayStep, propGet_propSet_same]
    cases hset : b.setProp ek (extras.getProp ek) with
    | error e => simp [bind, Except.bind, Except.map]
    | ok t =>
      simp only [bind, Except.bind, pure, Except.pure, propSet_propSet]
      exact ih settings t

theorem mergeKey_eq (defConfig config settings : Props) (k : String) :
    mergeKey defConfig config settings k =
      if k = "__proto__" then .error .notModelled
      else (mergedValue defConfig config k).map (propSet settings k) := by
  unfold mergeKey mergedValue settingsSet
  by_cases hk : k = "__proto__"
  · simp [hk, bind, Except.bind]
  · simp only [hk, if_false, bind, Except.bind]
    by_cases he : (propGet config (k ++ "Extras")).truthy = true
    · simp only [he, if_true]
      exact overlay_fold _ k _ settings _
    · simp [he, Except.map, pure, Except.pure, baseValue]

theorem mergeDefaults_fold (defConfig config : Props) (keys : List String) :
    ∀ (s0 s : Props), keys.foldlM (mergeKey defConfig config) s0 = .ok s →
      (∀ k ∈ keys, mergedValue defConfig config k = .ok (propGet s k)) ∧
      (∀ k, k ∉ keys → propGet s k = propGet s0 k) := by
  induction keys with
  | nil =>
    intro s0 s h
    simp [pure, Except.pure] at h
    subst h
    simp
  | cons k0 rest ih =>
    intro s0 s h
    simp only [List.foldlM_cons, mergeKey_eq] at h
    by_cases hk : k0 = "__proto__"
    · simp [hk, bind, Except.bind] at h
    · simp only [hk, if_false] at h
      cases hv : mergedValue defConfig config k0 with
      | error e => simp [hv, Except.map, bind, Except.bind] at h
      | ok v =>
        simp only [hv, Except.map, bind, Except.bind] at h
        obtain ⟨h1, h2⟩ := ih _ s h
        constructor
        · intro k hkm
          by_cases hr : k ∈ rest
          · exact h1 k hr
          · have hkk : k = k0 := by
              rcases List.mem_cons.1 hkm with e | e
              · exact e
              · exact absurd e hr
            subst hkk
            rw [h2 k hr, propGet_propSet_same]
            exact hv
        · intro k hkn
          have hne : k ≠ k0 := fun e => hkn (e ▸ List.mem_cons_self _ _)
          have hr : k ∉ rest := fun e => hkn (List.mem_cons_of_mem _ e)
          rw [h2 k hr, propGet_propSet_ne _ _ _ _ hne]

theorem setProp_obj_ok (kind : ObjKind) (ps : Props) (k : String) (v w : JSVal)
    (h : (JSVal.obj kind ps).setProp k v = .ok w) : w = .obj kind (propSet ps k v) := by
  unfold JSVal.setProp at h
  by_cases hp : k = "__proto__"
  · simp [hp] at h
  · simp only [hp, if_false] at h
    cases kind with
    | plain =>
      simp at h
      exact h.symm
    | array =>
      by_cases hl : k = "length"
      · simp [hl] at h
      · simp [hl] at h
        exact h.symm
    | function c =>
      by_cases hl : k = "length" ∨ k = "name"
      · simp [hl] at h
      · simp [hl] at h
        exact h.symm

theorem setProp_fold_obj (kind : ObjKind) (E : String → JSVal) (keys : List String) :
    ∀ (bps : Props) (v : JSVal),
      keys.foldlM (fun (acc : JSVal) ek => acc.setProp ek (E ek)) (.obj kind bps) = .ok v →
      ∃ bps', v = .obj kind bps' ∧ (∀ p ∈ keys, propGet bps' p = E p) ∧
        (∀ p, p ∉ keys → propGet bps' p = propGet bps p) := by
  induction keys with
  | nil =>
    intro bps v h
    simp [pure, Except.pure] at h
    exact ⟨bps, h.symm, by simp, fun _ _ => rfl⟩
  | cons ek rest ih =>
    intro bps v h
    simp only [List.foldlM_cons] at h
    cases hs : (JSVal.obj kind bps).setProp ek (E ek) with
    | error e => simp [hs, bind, Except.bind] at h
    | ok w =>
      have hw := setProp_obj_ok kind bps ek (E ek) w hs
      subst hw
      simp only [hs, bind, Except.bind] at h
      obtain ⟨bps', hv, h1, h2⟩ := ih _ v h
      refine ⟨bps', hv, ?_, ?_⟩
      · intro p hp
        by_cases hr : p ∈ rest
        · exact h1 p hr
        · have hpe : p = ek := by
            rcases List.mem_cons.1 hp with e | e
            · exact e
            · exact absurd e hr
          subst hpe
          rw [h2 p hr, propGet_propSet_same]
      · intro p hp
        have hne : p ≠ ek := fun e => hp (e ▸ List.mem_cons_self _ _)
        have hr : p ∉ rest := fun e => hp (List.mem_cons_of_mem _ e)
        rw [h2 p hr, propGet_propSet_ne _ _ _ _ hne]

/-- What `reduceConfiguration` leaves under a default key: the merged value,
except for the two synthesized callbacks and for `discovery` when a homepage
is configured. -/
theorem reduceConfiguration_get (defConfig : Props) (config : RawConfig) (settings : Props)
    (k : String) (hres : reduceConfiguration defConfig config = .ok settings)
    (hk : k ∈ propKeys defConfig) (hi : k ≠ "interactionUrl") (hf : k ≠ "findById") :
    ∃ m, mergedValue defConfig config.config k = .ok m ∧
      ((k = "discovery" ∧ config.urls.homepage.truthy = true ∧
          m.setProp "service_documentation" config.urls.homepage = .ok (propGet settings k)) ∨
       ((k = "discovery" → config.urls.homepage.truthy = false) ∧ propGet settings k = m)) := by
  unfold reduceConfiguration at hres
  cases hm : mergeDefaults defConfig config.config with
  | error e => simp [hm, bind, Except.bind] at hres
  | ok s1 =>
    simp only [hm, bind, Except.bind] at hres
    have hmv := (mergeDefaults_fold defConfig config.config _ [] s1 hm).1 k hk
    refine ⟨propGet s1 k, hmv, ?_⟩
    by_cases hh : config.urls.homepage.truthy = true
    · simp only [hh, if_true] at hres
      cases hd : (propGet (propSet s1 "interactionUrl"
          (.obj (.function (.interactionUrl config.urls.interaction)) [])) "discovery").setProp
          "service_documentation" config.urls.homepage with
      | error e => simp [hd, pure, Except.pure] at hres
      | ok d =>
        simp only [hd, pure, Except.pure, Except.ok.injEq] at hres
        subst hres
        by_cases hkd : k = "discovery"
        · left
          subst hkd
          refine ⟨rfl, hh, ?_⟩
          rw [propGet_propSet_ne _ _ _ _ hf, propGet_propSet_same]
          rw [propGet_propSet_ne _ _ _ _ hi] at hd
          exact hd
        · right
          refine ⟨fun e => absurd e hkd, ?_⟩
          rw [propGet_propSet_ne _ _ _ _ hf, propGet_propSet_ne _ _ _ _ hkd,
            propGet_propSet_ne _ _ _ _ hi]
    · right
      simp only [Bool.not_eq_true] at hh
      simp only [hh, Bool.false_eq_true, if_false, pure, Except.pure, Except.ok.injEq] at hres
      subst hres
      refine ⟨fun _ => hh, ?_⟩
      rw [propGet_propSet_ne _ _ _ _ hf, propGet_propSet_ne _ _ _ _ hi]

/-- An override of a provider callback does not survive: `findById` and
`interactionUrl` are replaced by the synthesized closures whatever the raw
configuration supplies. -/
theorem reduceConfiguration_callbacks (defConfig : Props) (config : RawConfig)
    (settings : Props) (hres : reduceConfiguration defConfig config = .ok settings) :
    propGet settings "findById" = .obj (.function .findById) [] ∧
    propGet settings "interactionUrl"
      = .obj (.function (.interactionUrl config.urls.interaction)) [] := by
  unfold reduceConfiguration at hres
  cases hm : mergeDefaults defConfig config.config with
  | error e => simp [hm, bind, Except.bind] at hres
  | ok s1 =>
    simp only [hm, bind, Except.bind] at hres
    by_cases hh : config.urls.homepage.truthy = true
    · simp only [hh, if_true] at hres
      cases hd : (propGet (propSet s1 "interactionUrl"
          (.obj (.function (.interactionUrl config.urls.interaction)) [])) "discovery").setProp
          "service_documentation" config.urls.homepage with
      | error e => simp [hd, pure, Except.pure] at hres
      | ok d =>
        simp only [hd, pure, Except.pure, Except.ok.injEq] at hres
        subst hres
        refine ⟨propGet_propSet_same _ _ _, ?_⟩
        rw [propGet_propSet_ne _ _ _ _ (by decide), propGet_propSet_ne _ _ _ _ (by decide),
          propGet_propSet_same]
    · simp only [Bool.not_eq_true] at hh
      simp only [hh, Bool.false_eq_true, if_false, pure, Except.pure, Except.ok.injEq] at hres
      subst hres
      refine ⟨propGet_propSet_same _ _ _, ?_⟩
      rw [propGet_propSet_ne _ _ _ _ (by decide), propGet_propSet_same]

/-- C2 (as amended): for a default key other than the two synthesized
callbacks and with no truthy `Extras` sibling, the effective value is the
override when the override is truthy and the default otherwise; for
`discovery` with a homepage configured it is that value after the assignment
of the homepage to its `service_documentation`. -/
theorem C2_truthy_override_else_default (defConfig : Props) (config : RawConfig)
    (settings : Props) (k : String)
    (hres : reduceConfiguration defConfig config = .ok settings)
    (hk : k ∈ propKeys defConfig)
    (hextras : (propGet config.config (k ++ "Extras")).truthy = false)
    (hi : k ≠ "interactionUrl") (hf : k ≠ "findById") :
    (k = "discovery" ∧ config.urls.homepage.truthy = true ∧
      (if (propGet config.config k).truthy then propGet config.config k
        else propGet defConfig k).setProp "service_documentation" config.urls.homepage
        = .ok (propGet settings k)) ∨
    ((k = "discovery" → config.urls.homepage.truthy = false) ∧
      propGet settings k =
        if (propGet config.config k).truthy then propGet config.config k
        else propGet defConfig k) := by
  obtain ⟨m, hm, h⟩ := reduceConfiguration_get defConfig config settings k hres hk hi hf
  unfold mergedValue at hm
  simp only [hextras, Bool.false_eq_true, if_false, pure, Except.pure, Except.ok.injEq,
    baseValue] at hm
  subst hm
  exact h

/-- C2, witness: the string override of `refreshTokenRotation` is the effective
value. -/
theorem C2_truthy_override_else_default_witness :
    reduceConfiguration sampleDefaults overrideConfig = .ok overrideSettings ∧
    propGet overrideSettings "refreshTokenRotation" = .str "rotateAndConsume" ∧
    ((("refreshTokenRotation" : String) = "discovery" ∧
        overrideConfig.urls.homepage.truthy = true ∧
        (if (propGet overrideConfig.config "refreshTokenRotation").truthy
          then propGet overrideConfig.config "refreshTokenRotation"
          else propGet sampleDefaults "refreshTokenRotation").setProp
            "service_documentation" overrideConfig.urls.homepage
          = .ok (propGet overrideSettings "refreshTokenRotation")) ∨
     ((("refreshTokenRotation" : String) = "discovery" →
          overrideConfig.urls.homepage.truthy = false) ∧
        propGet overrideSettings "refreshTokenRotation" =
          if (propGet overrideConfig.config "refreshTokenRotation").truthy
          then propGet overrideConfig.config "refreshTokenRotation"
          else propGet sampleDefaults "refreshTokenRotation")) :=
  ⟨rfl, rfl, C2_truthy_override_else_default sampleDefaults overrideConfig overrideSettings
    "refreshTokenRotation" rfl (by decide) rfl (by decide) (by decide)⟩

/-- C2, counterexample: the override `false` for a default that is `true` is
supplied but does not become the effective value; and a supplied `findById`
is replaced by the synthesized closure. -/
theorem C2_counterexample_falsy_override :
    ¬ SuppliedOverrideWins ∧
    (∃ settings, reduceConfiguration sampleDefaults callbackConfig = .ok settings ∧
      "findById" ∈ propKeys sampleDefaults ∧
      propGet callbackConfig.config "findById" = .obj .plain [("lookup", .str "custom")] ∧
      propGet settings "findById" = .obj (.function .findById) []) := by
  refine ⟨fun h => ?_, _, rfl, by decide, rfl, rfl⟩
  have h1 := (h sampleDefaults switchOffConfig switchOffSettings "refreshTokenRotation" rfl
    (by decide) (by decide)).1 (by decide)
  have h2 : propGet switchOffSettings "refreshTokenRotation" = .bool true := rfl
  have h3 : propGet switchOffConfig.config "refreshTokenRotation" = .bool false := rfl
  rw [h2, h3] at h1
  cases h1

/-- C3 (as amended): for a default key other than the two synthesized
callbacks whose base value is an object and whose `Extras` sibling is an
object, every property of the effective value is the extras value when the
extras name it and the base value otherwise; the one exception is
`discovery.service_documentation` with a homepage configured, which is the
homepage and nothing else. -/
theorem C3_extras_overlaid (defConfig : Props) (config : RawConfig) (settings : Props)
    (k : String) (kind ekind : ObjKind) (bps eps : Props)
    (hres : reduceConfiguration defConfig config = .ok settings)
    (hk : k ∈ propKeys defConfig)
    (hex : propGet config.config (k ++ "Extras") = .obj ekind eps)
    (hbase : baseValue defConfig config.config k = .obj kind bps)
    (hi : k ≠ "interactionUrl") (hf : k ≠ "findById") (p : String) :
    ((k = "discovery" ∧ config.urls.homepage.truthy = true ∧ p = "service_documentation") →
      (propGet settings k).getProp p = config.urls.homepage) ∧
    (¬ (k = "discovery" ∧ config.urls.homepage.truthy = true ∧ p = "service_documentation") →
      (p ∈ propKeys eps → (propGet settings k).getProp p = propGet eps p) ∧
      (p ∉ propKeys eps → (propGet settings k).getProp p = propGet bps p)) := by
  obtain ⟨m, hm, h⟩ := reduceConfiguration_get defConfig config settings k hres hk hi hf
  unfold mergedValue at hm
  rw [hex, hbase] at hm
  simp only [JSVal.truthy, if_true, JSVal.ownKeys, JSVal.getProp] at hm
  obtain ⟨bps', hv, h1, h2⟩ := setProp_fold_obj kind (fun ek => propGet eps ek) _ bps m hm
  subst hv
  rcases h with ⟨hkd, hh, hset⟩ | ⟨hd, hset⟩
  · have hw := setProp_obj_ok _ _ _ _ _ hset
    rw [hw]
    by_cases hp : p = "service_documentation"
    · subst hp
      refine ⟨fun _ => ?_, fun hn => absurd ⟨hkd, hh, rfl⟩ hn⟩
      simp [JSVal.getProp, propGet_propSet_same]
    · refine ⟨fun hg => absurd hg.2.2 hp, fun _ => ?_⟩
      simp only [JSVal.getProp, propGet_propSet_ne _ _ _ _ hp]
      exact ⟨h1 p, h2 p⟩
  · refine ⟨fun hg => ?_, fun _ => ?_⟩
    · have hfalse := hd hg.1
      rw [hg.2.1] at hfalse
      cases hfalse
    · rw [hset]
      simp only [JSVal.getProp]
      exact ⟨h1 p, h2 p⟩

/-- C3, witness: without a homepage the documentation link of
`discoveryExtras` lands on the default `discovery` document; with a homepage
the link is the homepage. -/
theorem C3_extras_overlaid_witness :
    (reduceConfiguration sampleDefaults overlayConfig = .ok overlaySettings ∧
      (propGet overlaySettings "discovery").getProp "service_documentation"
        = .str "https://docs.example/") ∧
    (reduceConfiguration sampleDefaults discoveryExtrasConfig = .ok discoveryExtrasSettings ∧
      (propGet discoveryExtrasSettings "discovery").getProp "service_documentation"
        = .str "https://home.example/") :=
  ⟨⟨rfl, ((C3_extras_overlaid sampleDefaults overlayConfig overlaySettings "discovery"
      .plain .plain [("service_documentation", .undefined)]
      [("service_documentation", .str "https://docs.example/")] rfl (by decide) rfl rfl
      (by decide) (by decide) "service_documentation").2
        (fun hg => absurd hg.2.1 (by decide))).1 (by decide)⟩,
   ⟨rfl, (C3_extras_overlaid sampleDefaults discoveryExtrasConfig discoveryExtrasSettings
      "discovery" .plain .plain [("service_documentation", .undefined)]
      [("service_documentation", .str "https://docs.example/")] rfl (by decide) rfl rfl
      (by decide) (by decide) "service_documentation").1 ⟨rfl, rfl, rfl⟩⟩⟩

/-- C3, counterexample: with a homepage configured, the documentation link
named in `discoveryExtras` is not the one found on the effective `discovery`
value; and the overlay written onto a supplied `findById` object is gone once
the synthesized closure has taken its place. -/
theorem C3_counterexample_homepage :
    ¬ ExtrasAlwaysOverlaid ∧
    (∃ settings, reduceConfiguration sampleDefaults callbackExtrasConfig = .ok settings ∧
      propGet callbackExtrasConfig.config "findByIdExtras"
        = .obj .plain [("cache", .bool true)] ∧
      baseValue sampleDefaults callbackExtrasConfig.config "findById"
        = .obj .plain [("lookup", .str "custom")] ∧
      (propGet settings "findById").getProp "cache" = .undefined) := by
  refine ⟨fun h => ?_, _, rfl, rfl, rfl, rfl⟩
  have h1 := (h sampleDefaults discoveryExtrasConfig discoveryExtrasSettings "discovery"
    .plain .plain [("service_documentation", .undefined)]
    [("service_documentation", .str "https://docs.example/")] rfl (by decide) rfl rfl).1
    "service_documentation" (by decide)
  have h2 : (propGet discoveryExtrasSettings "discovery").getProp "service_documentation"
      = .str "https://home.example/" := rfl
  have h3 : propGet [("service_documentation", JSVal.str "https://docs.example/")]
      "service_documentation" = .str "https://docs.example/" := rfl
  rw [h2, h3] at h1
  have h4 : ("https://home.example/" : String) = "https://docs.example/" := by
    injection h1
  exact absurd h4 (by decide)

/-! ### Lemmas for the account resolver -/

theorem orElse_bind_eq (info : AccountInfo) :
    orElse info.bind info.id =
      (match info.bind with
       | some b => if b = "" then info.id else b
       | none => info.id) := by
  unfold orElse
  cases info.bind with
  | none => rfl
  | some b => by_cases hb : b = "" <;> simp [hb]

theorem orElse_scope_eq (info : AccountInfo) :
    orElse info.scope "sub" = expectedScope info := by
  unfold orElse expectedScope
  cases info.scope with
  | none => rfl
  | some b => by_cases hb : b = "" <;> simp [hb]

/-- The filter built by `accountByLogin` is the filter of the contract. -/
theorem accountFilter_eq (info : AccountInfo) (login : String) :
    (if filterTruthy info.filter then
        match info.filter with
        | some f => concat [.str "&", .list [.str ("objectClass=" ++ info.objectClass)],
            .list [.str (orElse info.bind info.id ++ "=" ++ login)]] f
        | none => [.str "&", .list [.str ("objectClass=" ++ info.objectClass)],
            .list [.str (orElse info.bind info.id ++ "=" ++ login)]]
      else [.str "&", .list [.str ("objectClass=" ++ info.objectClass)],
            .list [.str (orElse info.bind info.id ++ "=" ++ login)]])
      = expectedFilter info login := by
  unfold expectedFilter
  rw [orElse_bind_eq]
  cases hf : info.filter with
  | none => simp [filterTruthy]
  | some f =>
    cases f with
    | str s => by_cases hs : s = "" <;> simp [filterTruthy, concat, hs]
    | list items => simp [filterTruthy, concat]

/-- The run of `accountByLogin`, path by path. -/
theorem accountByLogin_eq (env : AccountEnv) (login pwd : String) :
    accountByLogin env login pwd =
      (match env.findAndBind env.accountInfo.source (expectedFilter env.accountInfo login)
          pwd (expectedScope env.accountInfo) with
       | .error err =>
         (.error err, [.findAndBind (expectedFilter env.accountInfo login) pwd
           (expectedScope env.accountInfo)])
       | .ok none =>
         (.ok none, [.findAndBind (expectedFilter env.accountInfo login) pwd
           (expectedScope env.accountInfo)])
       | .ok (some connection) =>
         match connection.findBase with
         | .error err =>
           (.error err, [.findAndBind (expectedFilter env.accountInfo login) pwd
             (expectedScope env.accountInfo), .findBase])
         | .ok none =>
           (.ok none, [.findAndBind (expectedFilter env.accountInfo login) pwd
             (expectedScope env.accountInfo), .findBase])
         | .ok (some []) =>
           (.ok none, [.findAndBind (expectedFilter env.accountInfo login) pwd
             (expectedScope env.accountInfo), .findBase])
         | .ok (some (first :: _)) =>
           (.ok (accountById env (propGet first env.accountInfo.id)).1,
            [.findAndBind (expectedFilter env.accountInfo login) pwd
              (expectedScope env.accountInfo), .findBase]
              ++ (accountById env (propGet first env.accountInfo.id)).2)) := by
  unfold accountByLogin
  simp only [accountFilter_eq, orElse_scope_eq]

theorem accountById_calls (env : AccountEnv) (userid : JSVal) :
    (accountById env userid).2 = [.adapterFind userid] := by
  unfold accountById
  by_cases h : (env.adapterFind userid).truthy = true <;> simp [h]

theorem accountById_result (env : AccountEnv) (userid : JSVal) :
    (accountById env userid).1 =
      if (env.adapterFind userid).truthy then
        some { userData := env.adapterFind userid, userid := userid }
      else none := by
  unfold accountById
  by_cases h : (env.adapterFind userid).truthy = true <;> simp [h]

/-- C4 (as amended): after a successful bind whose base search returns at least
one entry, `accountByLogin` consults the account store once, for the id
attribute of the first entry; it returns an account carrying that identifier
when the store holds a record for it, and `null` when the store holds none. -/
theorem C4_login_resolves_first_entry (env : AccountEnv) (login pwd : String)
    (connection : Connection) (e : Entry) (others : List Entry)
    (hbind : env.findAndBind env.accountInfo.source (expectedFilter env.accountInfo login)
        pwd (expectedScope env.accountInfo) = .ok (some connection))
    (hbase : connection.findBase = .ok (some (e :: others))) :
    (accountByLogin env login pwd).1 =
      .ok (if (env.adapterFind (propGet e env.accountInfo.id)).truthy then
        some { userData := env.adapterFind (propGet e env.accountInfo.id),
               userid := propGet e env.accountInfo.id }
       else none) ∧
    storeCalls (accountByLogin env login pwd).2
      = [.adapterFind (propGet e env.accountInfo.id)] := by
  rw [accountByLogin_eq, hbind]
  simp only [hbase, accountById_calls, accountById_result]
  exact ⟨trivial, rfl⟩

/-- C4, witness: with the store in step with the directory, the login by
`mail` resolves to the account identified by the entry's `uid`. -/
theorem C4_login_resolves_first_entry_witness :
    (accountByLogin inSyncEnv "alice@example.org" "secret").1 =
      .ok (if (inSyncEnv.adapterFind (propGet sampleEntry inSyncEnv.accountInfo.id)).truthy then
        some { userData := inSyncEnv.adapterFind (propGet sampleEntry inSyncEnv.accountInfo.id),
               userid := propGet sampleEntry inSyncEnv.accountInfo.id }
       else none) ∧
    storeCalls (accountByLogin inSyncEnv "alice@example.org" "secret").2
      = [.adapterFind (propGet sampleEntry inSyncEnv.accountInfo.id)] :=
  C4_login_resolves_first_entry inSyncEnv "alice@example.org" "secret"
    { findBase := .ok (some [sampleEntry]) } sampleEntry [] rfl rfl

/-- C4, counterexample: the bind succeeds and one entry matches, yet the
account store has no record for it and `accountByLogin` returns `null`. -/
theorem C4_counterexample_out_of_sync : ¬ BoundLoginYieldsAccount := by
  intro h
  obtain ⟨account, hacc, -⟩ := h outOfSyncEnv "alice@example.org" "secret"
    { findBase := .ok (some [sampleEntry]) } sampleEntry rfl rfl
  have hnone : (accountByLogin outOfSyncEnv "alice@example.org" "secret").1 = .ok none := rfl
  rw [hnone] at hacc
  cases hacc

/-- C5 (as amended): when the bind call resolves without a connection and when
the base search resolves with no entry, `accountByLogin` returns `null`; when
the bind call or the base search rejects, as on a failed connection,
`accountByLogin` rejects with the same error; in none of these cases is the
account store consulted.  The three example directories behave so. -/
theorem C5_directory_errors (env : AccountEnv) (login pwd : String) :
    (env.findAndBind env.accountInfo.source (expectedFilter env.accountInfo login)
        pwd (expectedScope env.accountInfo) = .ok none →
      (accountByLogin env login pwd).1 = .ok none ∧
      storeCalls (accountByLogin env login pwd).2 = []) ∧
    (∀ connection,
      env.findAndBind env.accountInfo.source (expectedFilter env.accountInfo login)
        pwd (expectedScope env.accountInfo) = .ok (some connection) →
      (connection.findBase = .ok none ∨ connection.findBase = .ok (some [])) →
      (accountByLogin env login pwd).1 = .ok none ∧
      storeCalls (accountByLogin env login pwd).2 = []) ∧
    (∀ err,
      env.findAndBind env.accountInfo.source (expectedFilter env.accountInfo login)
        pwd (expectedScope env.accountInfo) = .error err →
      (accountByLogin env login pwd).1 = .error err ∧
      storeCalls (accountByLogin env login pwd).2 = []) ∧
    (∀ connection err,
      env.findAndBind env.accountInfo.source (expectedFilter env.accountInfo login)
        pwd (expectedScope env.accountInfo) = .ok (some connection) →
      connection.findBase = .error err →
      (accountByLogin env login pwd).1 = .error err ∧
      storeCalls (accountByLogin env login pwd).2 = []) ∧
    (accountByLogin wrongPasswordEnv "alice@example.org" "guess").1 = .ok none ∧
    (accountByLogin emptySearchEnv "alice@example.org" "secret").1 = .ok none ∧
    (accountByLogin unreachableEnv "alice@example.org" "secret").1
      = .error .connectionFailed := by
  refine ⟨?_, ?_, ?_, ?_, rfl, rfl, rfl⟩
  · intro h
    rw [accountByLogin_eq, h]
    exact ⟨rfl, rfl⟩
  · intro connection h hb
    rw [accountByLogin_eq, h]
    rcases hb with hb | hb
    · simp only [hb]
      exact ⟨trivial, rfl⟩
    · simp only [hb]
      exact ⟨trivial, rfl⟩
  · intro err h
    rw [accountByLogin_eq, h]
    exact ⟨rfl, rfl⟩
  · intro connection err h hb
    rw [accountByLogin_eq, h]
    simp only [hb]
    exact ⟨trivial, rfl⟩

/-- C5, counterexample: against a directory whose connection fails the bind
call rejects, and `accountByLogin` rejects with it instead of returning
`null`. -/
theorem C5_counterexample_rejected_bind : ¬ DirectoryErrorsYieldNull := by
  intro h
  have h1 := (h unreachableEnv "alice@example.org" "secret" (Or.inl rfl)).1
  have h2 : (accountByLogin unreachableEnv "alice@example.org" "secret").1
      = .error .connectionFailed := rfl
  rw [h2] at h1
  cases h1

/-- C6: `accountByLogin` makes exactly one bind call; its filter is the
conjunction of the class test and the test of the login against `bind` (or
`id` when no `bind` is configured), followed by the configured fragments if
any; its password is the supplied one; its scope is the configured one, or
`sub`. -/
theorem C6_bind_call_arguments (env : AccountEnv) (login pwd : String) :
    ∃ (attr : String) (fragments : List Filter) (scope : String),
      bindCalls (accountByLogin env login pwd).2 =
        [.findAndBind
          ([.str "&", .list [.str ("objectClass=" ++ env.accountInfo.objectClass)],
            .list [.str (attr ++ "=" ++ login)]] ++ fragments) pwd scope] ∧
      (∀ b, env.accountInfo.bind = some b → b ≠ "" → attr = b) ∧
      (env.accountInfo.bind = none ∨ env.accountInfo.bind = some "" →
        attr = env.accountInfo.id) ∧
      (∀ items, env.accountInfo.filter = some (.list items) → fragments = items) ∧
      (∀ s, env.accountInfo.filter = some (.str s) → s ≠ "" → fragments = [.str s]) ∧
      (env.accountInfo.filter = none ∨ env.accountInfo.filter = some (.str "") →
        fragments = []) ∧
      (∀ s, env.accountInfo.scope = some s → s ≠ "" → scope = s) ∧
      (env.accountInfo.scope = none ∨ env.accountInfo.scope = some "" → scope = "sub") := by
  refine ⟨(match env.accountInfo.bind with
      | some b => if b = "" then env.accountInfo.id else b
      | none => env.accountInfo.id),
    (match env.accountInfo.filter with
      | some (.list items) => items
      | some (.str s) => if s = "" then [] else [.str s]
      | none => []),
    expectedScope env.accountInfo, ?_, ?_, ?_, ?_, ?_, ?_, ?_, ?_⟩
  · rw [accountByLogin_eq]
    cases env.findAndBind env.accountInfo.source (expectedFilter env.accountInfo login)
        pwd (expectedScope env.accountInfo) with
    | error err => rfl
    | ok resolved =>
      cases resolved with
      | none => rfl
      | some connection =>
        cases hb : connection.findBase with
        | error err => simp only [hb]; rfl
        | ok uInfo =>
          cases uInfo with
          | none => simp only [hb]; rfl
          | some entries =>
            cases entries with
            | nil => simp only [hb]; rfl
            | cons first _ =>
              simp only [hb, accountById_calls]
              rfl
  · intro b hb hne
    simp [hb, hne]
  · rintro (hb | hb) <;> simp [hb]
  · intro items hf
    simp [hf]
  · intro s hf hne
    simp [hf, hne]
  · rintro (hf | hf) <;> simp [hf]
  · intro s hs hne
    simp [expectedScope, hs, hne]
  · rintro (hs | hs) <;> simp [expectedScope, hs]

/-! ### Lemmas for `findConfiguration` -/

theorem searchPath_eq_candidates (sys : System) (extraPaths : ExtraPaths) (force : Bool) :
    searchPath sys extraPaths force = candidates sys extraPaths force := by
  unfold searchPath candidates extraEntries standardCandidates envEntries
  by_cases hw : sys.platform = "win32" <;> cases hn : extraPaths.nonEmpty <;> cases force <;>
    cases he : sys.OIDC_CONFIG with
    | none => simp [hw]
    | some envPath => by_cases hs : envSet (some envPath) = true <;> simp [hw, hs]

theorem firstValid_map (sys : System) (dirs : List String) :
    (∃ before d tail, dirs = before ++ d :: tail ∧
        (∀ x ∈ before, sys.isFile (candidateFile sys x) = false) ∧
        sys.isFile (candidateFile sys d) = true ∧
        firstValid (dirs.map (checkConfigurationDir sys)) = some (candidateFile sys d)) ∨
    ((∀ x ∈ dirs, sys.isFile (candidateFile sys x) = false) ∧
        firstValid (dirs.map (checkConfigurationDir sys)) = none) := by
  induction dirs with
  | nil => right; exact ⟨by simp, rfl⟩
  | cons d0 rest ih =>
    by_cases h0 : sys.isFile (candidateFile sys d0) = true
    · left
      refine ⟨[], d0, rest, rfl, by simp, h0, ?_⟩
      have hc : checkConfigurationDir sys d0 = some (candidateFile sys d0) := by
        unfold checkConfigurationDir candidateFile at *
        simp [h0]
      simp [List.map_cons, hc, firstValid]
    · simp only [Bool.not_eq_true] at h0
      have hc : checkConfigurationDir sys d0 = none := by
        unfold checkConfigurationDir candidateFile at *
        simp [h0]
      rcases ih with ⟨before, d, tail, hd, hb, hf, hv⟩ | ⟨hall, hv⟩
      · left
        refine ⟨d0 :: before, d, tail, by simp [hd], ?_, hf, ?_⟩
        · intro x hx
          rcases List.mem_cons.1 hx with e | e
          · rw [e]; exact h0
          · exact hb x e
        · simp [List.map_cons, hc, firstValid, hv]
      · right
        refine ⟨?_, ?_⟩
        · intro x hx
          rcases List.mem_cons.1 hx with e | e
          · rw [e]; exact h0
          · exact hall x e
        · simp [List.map_cons, hc, firstValid, hv]

theorem plainJoin_ne_empty (a b : String) : plainJoin a b ≠ "" := by
  intro h
  have hl := congrArg String.length h
  simp [plainJoin, String.length_append] at hl
  exact absurd hl.1.2 (by decide)

/-- C7 (as amended): `findConfiguration` hands `loadConfiguration` the file of
the first candidate directory, in priority order, that holds a regular file
of the configured name, and throws "Cannot find OIDC configuration file"
exactly when no candidate holds one.  The order is the entries of
`extraPaths`, of `OIDC_CONFIG`, `/etc/oidc` (not on win32) and the bundled
directory; `force` reduces it to the entries of `extraPaths` when there are
any and is ignored when `extraPaths` is empty. -/
theorem C7_first_candidate_wins (sys : System) (extraPaths : ExtraPaths) (force : Bool)
    (hjoin : ∀ a b, sys.pathJoin a b ≠ "") :
    FirstMatch sys (candidates sys extraPaths force) (findConfiguration sys extraPaths force) := by
  unfold FirstMatch findConfiguration
  rw [searchPath_eq_candidates]
  rcases firstValid_map sys (candidates sys extraPaths force) with
    ⟨before, d, tail, hd, hb, hf, hv⟩ | ⟨hall, hv⟩
  · left
    refine ⟨before, d, tail, hd, hb, hf, ?_⟩
    have hne : ¬ candidateFile sys d = "" := hjoin _ _
    simp [hv, hne]
  · right
    exact ⟨hall, by simp [hv]⟩

/-- C7, witness: on a POSIX host holding only `/etc/oidc/settings.json`, a
lookup with the extra directory `/srv/oidc` falls through to `/etc/oidc`. -/
theorem C7_first_candidate_wins_witness :
    FirstMatch posixHost (candidates posixHost (.list ["/srv/oidc"]) false)
      (findConfiguration posixHost (.list ["/srv/oidc"]) false) ∧
    findConfiguration posixHost (.list ["/srv/oidc"]) false = .ok "/etc/oidc/settings.json" :=
  ⟨C7_first_candidate_wins posixHost (.list ["/srv/oidc"]) false plainJoin_ne_empty, rfl⟩

/-- C7, counterexample: with `force` set and an empty `extraPaths` the stated
order has no candidate at all, yet `/etc/oidc/settings.json` is loaded. -/
theorem C7_counterexample_forced_empty : ¬ ForcedExtraPathsOnly := by
  intro h
  have h1 := h posixHost (.list []) true plainJoin_ne_empty
  have h2 : findConfiguration posixHost (.list []) true = .ok "/etc/oidc/settings.json" := rfl
  have h3 : statedCandidates posixHost (.list []) true = [] := rfl
  rw [h2, h3] at h1
  rcases h1 with ⟨before, d, tail, hd, -⟩ | ⟨-, hr⟩
  · cases before <;> cases hd
  · cases hr

/-! ### Lemmas for the mapping loader -/

theorem mem_propKeys_propSet (ps : Props) (k j : String) (v : JSVal) :
    j ∈ propKeys (propSet ps k v) ↔ j = k ∨ j ∈ propKeys ps := by
  induction ps with
  | nil => simp [propSet, propKeys]
  | cons p ps ih =>
    obtain ⟨k', v'⟩ := p
    by_cases hk : k' = k
    · subst hk
      simp [propSet, propKeys]
    · simp only [propKeys] at ih
      simp only [propSet, hk, if_false, propKeys, List.map_cons, List.mem_cons, ih]
      tauto

theorem nodup_propKeys_propSet (ps : Props) (k : String) (v : JSVal)
    (h : (propKeys ps).Nodup) : (propKeys (propSet ps k v)).Nodup := by
  induction ps with
  | nil => simp [propSet, propKeys]
  | cons p ps ih =>
    obtain ⟨k', v'⟩ := p
    simp only [propKeys, List.map_cons, List.nodup_cons] at h
    by_cases hk : k' = k
    · subst hk
      simp only [propSet, if_true, propKeys, List.map_cons, List.nodup_cons]
      exact h
    · simp only [propSet, hk, if_false, propKeys, List.map_cons, List.nodup_cons]
      refine ⟨?_, ih h.2⟩
      intro hm
      rcases (mem_propKeys_propSet ps k k' v).1 hm with e | e
      · exact hk e
      · exact h.1 e

theorem loadMappingFile_eq (env : MappingEnv) (mapping : Props) (name : String) :
    loadMappingFile env mapping name =
      (match declaredFile env name with
       | none => .ok mapping
       | some file =>
         match parsedFile env file with
         | .error e => .error e
         | .ok doc => .ok (mappingSet mapping (env.toLowerCase name) doc)) := by
  unfold loadMappingFile declaredFile mappingPath parsedFile
  by_cases hn : name = ""
  · simp [hn]
  · simp only [hn, if_false]
    cases orgGet env.organization name with
    | none => rfl
    | some org =>
      obtain ⟨mp⟩ := org
      cases mp with
      | none => rfl
      | some mapFile =>
        by_cases hm : mapFile = ""
        · simp [hm]
        · simp only [hm, if_false]
          cases env.readFile
              (if env.isAbsolute mapFile = true then mapFile
               else env.pathJoin env.referencePath mapFile) with
          | none => rfl
          | some data =>
            dsimp only
            cases env.jsonParse data with
            | none => rfl
            | some result => rfl

/-- A rejected run names a declared file that cannot be read or parsed. -/
theorem loadMappings_error (env : MappingEnv) (names : List String) :
    ∀ (m0 : Props) (e : MappingError),
      names.foldlM (loadMappingFile env) m0 = .error e →
      ∃ name ∈ names, ∃ file, declaredFile env name = some file ∧
        parsedFile env file = .error e := by
  induction names with
  | nil =>
    intro m0 e h
    simp [pure, Except.pure] at h
  | cons n rest ih =>
    intro m0 e h
    simp only [List.foldlM_cons, loadMappingFile_eq] at h
    cases hd : declaredFile env n with
    | none =>
      simp only [hd, bind, Except.bind] at h
      obtain ⟨name, hmem, file, h1, h2⟩ := ih m0 e h
      exact ⟨name, List.mem_cons_of_mem _ hmem, file, h1, h2⟩
    | some file =>
      cases hp : parsedFile env file with
      | error e0 =>
        simp only [hd, hp, bind, Except.bind, Except.error.injEq] at h
        subst h
        exact ⟨n, List.mem_cons_self _ _, file, hd, hp⟩
      | ok doc =>
        simp only [hd, hp, bind, Except.bind] at h
        obtain ⟨name, hmem, file', h1, h2⟩ := ih _ e h
        exact ⟨name, List.mem_cons_of_mem _ hmem, file', h1, h2⟩

theorem propGet_mappingSet_ne (ps : Props) (k j : String) (v : JSVal) (h : j ≠ k) :
    propGet (mappingSet ps k v) j = propGet ps j := by
  unfold mappingSet
  split
  · rfl
  · exact propGet_propSet_ne ps k j v h

theorem mem_propKeys_mappingSet (ps : Props) (k j : String) (v : JSVal) :
    j ∈ propKeys (mappingSet ps k v) ↔ (j = k ∧ k ≠ "__proto__") ∨ j ∈ propKeys ps := by
  unfold mappingSet
  by_cases hk : k = "__proto__"
  · simp [hk]
  · simp only [hk, if_false, mem_propKeys_propSet]
    constructor
    · rintro (e | e)
      · exact Or.inl ⟨e, fun h => hk h⟩
      · exact Or.inr e
    · rintro (⟨e, -⟩ | e)
      · exact Or.inl e
      · exact Or.inr e

theorem nodup_propKeys_mappingSet (ps : Props) (k : String) (v : JSVal)
    (h : (propKeys ps).Nodup) : (propKeys (mappingSet ps k v)).Nodup := by
  unfold mappingSet
  split
  · exact h
  · exact nodup_propKeys_propSet ps k v h

theorem propGet_mappingSet_same (ps : Props) (k : String) (v : JSVal) (h : k ≠ "__proto__") :
    propGet (mappingSet ps k v) k = v := by
  unfold mappingSet
  simp only [h, if_false]
  exact propGet_propSet_same ps k v

/-- A completed run leaves alone every key that no processed name lowers
to. -/
theorem loadMappings_untouched (env : MappingEnv) (names : List String) :
    ∀ (m0 m : Props), names.foldlM (loadMappingFile env) m0 = .ok m →
      ∀ k, k ∉ names.map env.toLowerCase →
        propGet m k = propGet m0 k ∧ (k ∈ propKeys m ↔ k ∈ propKeys m0) := by
  induction names with
  | nil =>
    intro m0 m h k _
    simp only [List.foldlM_nil, pure, Except.pure, Except.ok.injEq] at h
    subst h
    exact ⟨rfl, Iff.rfl⟩
  | cons n rest ih =>
    intro m0 m h k hk
    simp only [List.map_cons, List.mem_cons, not_or] at hk
    simp only [List.foldlM_cons, loadMappingFile_eq] at h
    cases hd : declaredFile env n with
    | none =>
      simp only [hd, bind, Except.bind] at h
      exact ih m0 m h k hk.2
    | some file =>
      cases hp : parsedFile env file with
      | error e0 => simp [hd, hp, bind, Except.bind] at h
      | ok doc =>
        simp only [hd, hp, bind, Except.bind] at h
        obtain ⟨h1, h2⟩ := ih _ m h k hk.2
        refine ⟨?_, ?_⟩
        · rw [h1, propGet_mappingSet_ne _ _ _ _ hk.1]
        · rw [h2, mem_propKeys_mappingSet]
          constructor
          · rintro (⟨e, -⟩ | e)
            · exact absurd e hk.1
            · exact e
          · exact Or.inr

/-- The own entries of `instanceConfig.mapping` after a completed run over
names whose lowercased forms are pairwise distinct. -/
theorem loadMappings_ok (env : MappingEnv) (names : List String) :
    ∀ (m0 m : Props), names.foldlM (loadMappingFile env) m0 = .ok m →
      (names.map env.toLowerCase).Nodup →
      (∀ name ∈ names, ∀ file, declaredFile env name = some file →
        ∃ doc, parsedFile env file = .ok doc ∧
          (env.toLowerCase name ≠ "__proto__" →
            env.toLowerCase name ∈ propKeys m ∧ propGet m (env.toLowerCase name) = doc)) ∧
      (∀ k ∈ propKeys m, k ∈ propKeys m0 ∨
        ∃ name ∈ names, ∃ file, declaredFile env name = some file ∧
          k = env.toLowerCase name ∧ k ≠ "__proto__") ∧
      ((propKeys m0).Nodup → (propKeys m).Nodup) := by
  induction names with
  | nil =>
    intro m0 m h _
    simp only [List.foldlM_nil, pure, Except.pure, Except.ok.injEq] at h
    subst h
    exact ⟨by simp, fun k hk => Or.inl hk, id⟩
  | cons n rest ih =>
    intro m0 m h hnd
    simp only [List.map_cons, List.nodup_cons] at hnd
    simp only [List.foldlM_cons, loadMappingFile_eq] at h
    cases hd : declaredFile env n with
    | none =>
      simp only [hd, bind, Except.bind] at h
      obtain ⟨h1, h2, h3⟩ := ih m0 m h hnd.2
      refine ⟨?_, ?_, h3⟩
      · intro name hmem file hf
        rcases List.mem_cons.1 hmem with e | e
        · subst e
          rw [hd] at hf
          cases hf
        · exact h1 name e file hf
      · intro k hk
        rcases h2 k hk with e | ⟨name, hmem, file, hf, hkk⟩
        · exact Or.inl e
        · exact Or.inr ⟨name, List.mem_cons_of_mem _ hmem, file, hf, hkk⟩
    | some file =>
      cases hp : parsedFile env file with
      | error e0 => simp [hd, hp, bind, Except.bind] at h
      | ok doc =>
        simp only [hd, hp, bind, Except.bind] at h
        obtain ⟨h1, h2, h3⟩ := ih _ m h hnd.2
        obtain ⟨u1, u2⟩ := loadMappings_untouched env rest _ m h (env.toLowerCase n) hnd.1
        refine ⟨?_, ?_, ?_⟩
        · intro name hmem file' hf
          rcases List.mem_cons.1 hmem with e | e
          · subst e
            rw [hd] at hf
            cases hf
            refine ⟨doc, hp, fun hproto => ⟨?_, ?_⟩⟩
            · rw [u2, mem_propKeys_mappingSet]
              exact Or.inl ⟨rfl, hproto⟩
            · rw [u1, propGet_mappingSet_same _ _ _ hproto]
          · exact h1 name e file' hf
        · intro k hk
          rcases h2 k hk with e | ⟨name, hmem, file', hf, hkk⟩
          · rcases (mem_propKeys_mappingSet _ _ _ _).1 e with ⟨e1, e2⟩ | e1
            · exact Or.inr ⟨n, List.mem_cons_self _ _, file, hd, e1, e1 ▸ e2⟩
            · exact Or.inl e1
          · exact Or.inr ⟨name, List.mem_cons_of_mem _ hmem, file', hf, hkk⟩
        · intro hn0
          exact h3 (nodup_propKeys_mappingSet _ _ _ hn0)

/-- C8 (as amended): for organizations whose lowercased names are pairwise
distinct, and whatever the order in which the loads settle, `loadMappings`
either rejects, with the error of a declared mapping file that cannot be read
or parsed, or completes with `instanceConfig.mapping` holding exactly one own
entry per organization that has a non-empty name not lowering to `__proto__`
and declares a non-empty mapping path, stored under the lowercased name and
equal to the parsed document; every other organization contributes no entry,
and an organization without a mapping path causes no error. -/
theorem C8_mappings_loaded (env : MappingEnv) (order : List String)
    (hperm : order.Perm (orgKeys env))
    (hnodup : ((orgKeys env).map env.toLowerCase).Nodup) :
    (∃ e, loadMappingsIn env order = .error e ∧
      ∃ name ∈ orgKeys env, ∃ file, declaredFile env name = some file ∧
        parsedFile env file = .error e) ∨
    (∃ m, loadMappingsIn env order = .ok m ∧
      (∀ name ∈ orgKeys env, ∀ file, declaredFile env name = some file →
        ∃ doc, parsedFile env file = .ok doc ∧
          (env.toLowerCase name ≠ "__proto__" →
            env.toLowerCase name ∈ propKeys m ∧ propGet m (env.toLowerCase name) = doc)) ∧
      (∀ name ∈ orgKeys env,
        declaredFile env name = none ∨ env.toLowerCase name = "__proto__" →
        env.toLowerCase name ∉ propKeys m) ∧
      (∀ k ∈ propKeys m, ∃ name ∈ orgKeys env, ∃ file,
        declaredFile env name = some file ∧ k = env.toLowerCase name ∧ k ≠ "__proto__") ∧
      (propKeys m).Nodup) := by
  have hnd : (order.map env.toLowerCase).Nodup :=
    (List.Perm.nodup_iff (List.Perm.map env.toLowerCase hperm)).2 hnodup
  cases hrun : loadMappingsIn env order with
  | error e =>
    left
    obtain ⟨name, hmem, file, h1, h2⟩ := loadMappings_error env order [] e hrun
    exact ⟨e, rfl, name, (List.Perm.mem_iff hperm).1 hmem, file, h1, h2⟩
  | ok m =>
    right
    obtain ⟨h1, h2, h3⟩ := loadMappings_ok env order [] m hrun hnd
    have hkeys : ∀ k ∈ propKeys m, ∃ name ∈ orgKeys env, ∃ file,
        declaredFile env name = some file ∧ k = env.toLowerCase name ∧ k ≠ "__proto__" := by
      intro k hk
      rcases h2 k hk with e | ⟨name, hmem, file, hf, hkk⟩
      · simp [propKeys] at e
      · exact ⟨name, (List.Perm.mem_iff hperm).1 hmem, file, hf, hkk⟩
    refine ⟨m, rfl, ?_, ?_, hkeys, h3 (by simp [propKeys])⟩
    · intro name hmem file hf
      exact h1 name ((List.Perm.mem_iff hperm).2 hmem) file hf
    · intro name hmem hcase hin
      obtain ⟨other, hom, file, hf, hkk, hproto⟩ := hkeys _ hin
      have heq : name = other := List.inj_on_of_nodup_map hnodup hmem hom hkk
      subst heq
      rcases hcase with hnone | hp
      · rw [hnone] at hf
        cases hf
      · exact hproto hp

/-- C8, witness: of three organizations, settling in an order other than the
key order, only the one that declares a mapping file gets an entry. -/
theorem C8_mappings_loaded_witness :
    loadMappingsIn threeOrgEnv ["Role", "Account", "Group"] = .ok [("account", .num 1)] ∧
    ((∃ e, loadMappingsIn threeOrgEnv ["Role", "Account", "Group"] = .error e ∧
      ∃ name ∈ orgKeys threeOrgEnv, ∃ file, declaredFile threeOrgEnv name = some file ∧
        parsedFile threeOrgEnv file = .error e) ∨
    (∃ m, loadMappingsIn threeOrgEnv ["Role", "Account", "Group"] = .ok m ∧
      (∀ name ∈ orgKeys threeOrgEnv, ∀ file, declaredFile threeOrgEnv name = some file →
        ∃ doc, parsedFile threeOrgEnv file = .ok doc ∧
          (threeOrgEnv.toLowerCase name ≠ "__proto__" →
            threeOrgEnv.toLowerCase name ∈ propKeys m ∧
            propGet m (threeOrgEnv.toLowerCase name) = doc)) ∧
      (∀ name ∈ orgKeys threeOrgEnv,
        declaredFile threeOrgEnv name = none ∨ threeOrgEnv.toLowerCase name = "__proto__" →
        threeOrgEnv.toLowerCase name ∉ propKeys m) ∧
      (∀ k ∈ propKeys m, ∃ name ∈ orgKeys threeOrgEnv, ∃ file,
        declaredFile threeOrgEnv name = some file ∧ k = threeOrgEnv.toLowerCase name ∧
          k ≠ "__proto__") ∧
      (propKeys m).Nodup)) :=
  ⟨rfl, C8_mappings_loaded threeOrgEnv ["Role", "Account", "Group"] (by decide) (by decide)⟩

/-- C8, counterexample: `Account` and `account` both declare a mapping file
and both files parse, yet the completed mapping holds a single entry
`account`, which is not the document of `Account`; an organization with the
empty name, and one named `__proto__`, get no entry for the mapping file they
declare. -/
theorem C8_counterexample_case_clash :
    ¬ EveryDeclaredMappingStored ∧
    (mappingPath emptyNameEnv "" = some "/etc/oidc/root.json" ∧
      parsedFile emptyNameEnv "/etc/oidc/root.json" = .ok (.num 1) ∧
      loadMappingsIn emptyNameEnv (orgKeys emptyNameEnv) = .ok []) ∧
    (mappingPath protoEnv "__proto__" = some "/etc/oidc/proto.json" ∧
      parsedFile protoEnv "/etc/oidc/proto.json" = .ok (.num 1) ∧
      loadMappingsIn protoEnv (orgKeys protoEnv) = .ok []) := by
  refine ⟨fun h => ?_, ⟨rfl, rfl, rfl⟩, ⟨rfl, rfl, rfl⟩⟩
  have h1 := h caseClashEnv ["Account", "account"] [("account", .num 2)]
    (List.Perm.refl _) (by decide) rfl "Account" (by decide)
    "/etc/oidc/account.json" (.num 1) rfl rfl
  have h2 : propGet [("account", JSVal.num 2)] (caseClashEnv.toLowerCase "Account")
      = .num 2 := rfl
  rw [h2] at h1
  have h3 : (2 : Int) = 1 := by injection h1
  exact absurd h3 (by decide)

/-! ### Lemmas for the key-store merge -/

theorem joseAdd_fold (keys : List JWK) :
    ∀ (jwks : List JWK), (kids jwks ++ kids keys).Nodup →
      keys.foldlM joseAdd jwks = .ok (jwks ++ keys) := by
  induction keys with
  | nil =>
    intro jwks _
    simp [pure, Except.pure]
  | cons k rest ih =>
    intro jwks h
    have hk : k.kid ∉ kids jwks := by
      intro hm
      simp only [kids, List.map_cons] at h hm
      have := (List.nodup_append.1 h).2.2
      exact this hm (List.mem_cons_self _ _)
    have hrest : (kids (jwks ++ [k]) ++ kids rest).Nodup := by
      simp only [kids, List.map_append, List.map_cons, List.map_nil, List.append_assoc,
        List.singleton_append] at h ⊢
      exact h
    simp only [List.foldlM_cons, joseAdd, hk, if_false, bind, Except.bind]
    rw [ih _ hrest]
    simp

theorem asKeyStore_ok (json : List JWK) (h : (kids json).Nodup) : asKeyStore json = .ok json := by
  unfold asKeyStore
  have := joseAdd_fold json [] (by simpa [kids] using h)
  simpa using this

theorem mergeTwice_ok (first second : List JWK) (type : StoreName)
    (h : (kids first ++ kids second).Nodup) :
    mergeTwice first second type
      = .ok ((Configurator.fresh.setStore type first).setStore type (first ++ second)) := by
  have hf : (kids first).Nodup := (List.nodup_append.1 h).1
  have h1 : mergeStore Configurator.fresh first type
      = .ok (Configurator.fresh.setStore type first) := by
    unfold mergeStore
    have hs : Configurator.fresh.store type = [] := by cases type <;> rfl
    rw [hs]
    simp only [asKeyStore, List.foldlM_nil, pure, Except.pure, bind, Except.bind]
    rw [joseAdd_fold first [] (by simpa [kids] using hf)]
    simp [toJSON]
  have hs2 : (Configurator.fresh.setStore type first).store type = first := by
    cases type <;> rfl
  unfold mergeTwice
  rw [h1]
  simp only [bind, Except.bind]
  unfold mergeStore
  rw [hs2, asKeyStore_ok first hf]
  simp only [bind, Except.bind]
  rw [joseAdd_fold second first h]
  simp [toJSON, pure, Except.pure]

/-- C9: starting from the empty stores, for key lists whose key-ids are
pairwise distinct and disjoint, merging `A` then `B` and merging `B` then `A`
both succeed and leave the named store with the same key-ids, those of `A`
together with those of `B`; the other store is still empty. -/
theorem C9_merge_order_independent (A B : List JWK) (type : StoreName)
    (h : (kids A ++ kids B).Nodup) :
    ∃ ab ba, mergeTwice A B type = .ok ab ∧ mergeTwice B A type = .ok ba ∧
      (∀ kid, kid ∈ kids (ab.store type) ↔ kid ∈ kids A ∨ kid ∈ kids B) ∧
      (∀ kid, kid ∈ kids (ba.store type) ↔ kid ∈ kids (ab.store type)) ∧
      ab.store type.other = Configurator.fresh.store type.other ∧
      ba.store type.other = Configurator.fresh.store type.other := by
  have h' : (kids B ++ kids A).Nodup :=
    (List.Perm.nodup_iff List.perm_append_comm).1 h
  refine ⟨_, _, mergeTwice_ok A B type h, mergeTwice_ok B A type h', ?_, ?_, ?_, ?_⟩
  · intro kid
    cases type <;> simp [Configurator.store, Configurator.setStore, kids]
  · intro kid
    cases type <;> simp [Configurator.store, Configurator.setStore, kids, or_comm]
  · cases type <;> rfl
  · cases type <;> rfl

/-- C9, witness: two keys merged before or after a third give the same three
key-ids in the certificate store. -/
theorem C9_merge_order_independent_witness :
    ∃ ab ba, mergeTwice sampleKeysA sampleKeysB .certificates = .ok ab ∧
      mergeTwice sampleKeysB sampleKeysA .certificates = .ok ba ∧
      (∀ kid, kid ∈ kids (ab.store .certificates) ↔
        kid ∈ kids sampleKeysA ∨ kid ∈ kids sampleKeysB) ∧
      (∀ kid, kid ∈ kids (ba.store .certificates) ↔ kid ∈ kids (ab.store .certificates)) ∧
      ab.store StoreName.certificates.other
        = Configurator.fresh.store StoreName.certificates.other ∧
      ba.store StoreName.certificates.other
        = Configurator.fresh.store StoreName.certificates.other :=
  C9_merge_order_independent sampleKeysA sampleKeysB .certificates (by decide)

/-! ### Lemmas for `getAcr` -/

theorem strIndexFrom_ge (pat : List Char) (cs : List Char) (i : Nat) :
    strIndexFrom pat cs i = -1 ∨ (i : Int) ≤ strIndexFrom pat cs i := by
  induction cs generalizing i with
  | nil =>
    unfold strIndexFrom
    split
    · right; exact le_refl _
    · left; rfl
  | cons c cs ih =>
    unfold strIndexFrom
    split
    · right; exact le_refl _
    · rcases ih (i + 1) with h | h
      · left; exact h
      · right
        have : (i : Int) ≤ ((i + 1 : Nat) : Int) := by omega
        exact le_trans this h

/-- A string in which `urn:` occurs at position `0` begins with `u`. -/
theorem head_of_urn_prefix (s : String) (h : strIndexOf s "urn:" = 0) :
    ∃ cs, s.toList = 'u' :: cs := by
  unfold strIndexOf at h
  cases hs : s.toList with
  | nil =>
    rw [hs] at h
    simp [strIndexFrom] at h
  | cons c cs =>
    rw [hs] at h
    unfold strIndexFrom at h
    by_cases hp : ("urn:".toList).isPrefixOf (c :: cs) = true
    · have hpre : "urn:".toList <+: (c :: cs) := List.isPrefixOf_iff_prefix.1 hp
      obtain ⟨t, ht⟩ := hpre
      have hl : "urn:".toList = ['u', 'r', 'n', ':'] := rfl
      rw [hl] at ht
      simp only [List.cons_append, List.cons.injEq] at ht
      exact ⟨cs, by rw [← ht.1]⟩
    · simp only [hp, Bool.false_eq_true, if_false] at h
      rcases strIndexFrom_ge "urn:".toList cs (0 + 1) with h1 | h1
      · rw [h1] at h
        simp at h
      · rw [h] at h1
        simp at h1

theorem stringToNumber_urn (numericLiteral : List Char → JSNum) (s : String)
    (h : strIndexOf s "urn:" = 0) : stringToNumber numericLiteral s = .nan := by
  obtain ⟨cs, hcs⟩ := head_of_urn_prefix s h
  unfold stringToNumber
  rw [hcs]
  have h1 : isJsSpace 'u' = false := by decide
  have h2 : startsNumeric 'u' = false := by decide
  simp [List.dropWhile, h1, h2]

/-- C10: for every list of strings `acrValues`, `getAcr` returns `null`: the
result of `find` is `undefined` or a string that begins with `urn:`, and
neither is `>= 0`. -/
theorem C10_getAcr_null (numericLiteral : List Char → JSNum) (acrValues : List String) :
    getAcr numericLiteral acrValues = JSVal.null ∧
    getAcr numericLiteral ["0", "urn:mace:incommon:iap:silver", "2"] = JSVal.null := by
  have key : ∀ xs : List String, getAcr numericLiteral xs = JSVal.null := by
    intro xs
    unfold getAcr
    cases hf : xs.find? (fun v => strIndexOf v "urn:" == 0) with
    | none => simp [geZero]
    | some s =>
      have hp := List.find?_some hf
      simp only [beq_iff_eq] at hp
      simp [geZero, stringToNumber_urn numericLiteral s hp, JSNum.geZero]
  exact ⟨key acrValues, key _⟩

end LdapOidc
